import Mathlib

/-!
# A shallow embedding of the BinDef core (repository `aescarias/binid`)

This file embeds, in Lean 4, the data model and the operations of the BinDef
language pipeline found under `src/bindef/` (lexer.go, parser nodes, eval.go,
result.go, document.go), and proves or refutes the frozen claims about it.

Modelling conventions, used consistently below:

* Go `string` values are modelled as Lean `String`s in which every `Char` is a
  single byte (code point < 256).  The Go code treats strings as raw byte
  sequences; this convention makes byte length, byte indexing and byte-wise
  comparison coincide with `String.length`, positional access and `String`
  equality/ordering on the embedded values.
* Go `[]byte` buffers and file contents are modelled as `List Nat` (each entry
  a byte value).
* `math/big.Int` is modelled as `Int` (the Go code uses arbitrary precision).
* `float64` is modelled as `Rat`.  No claim in this development depends on
  floating-point rounding; the model performs the corresponding arithmetic
  exactly and this idealization is confined to code paths no theorem below
  relies on for its verdict.
* Go maps (`map[Result]Result`) do not retain insertion order and their
  iteration order is unspecified.  We model the backing storage as an
  association list (`GoMap`), model assignment exactly like Go map assignment
  (replace the entry whose key compares `==`-equal, else add an entry), and
  model every `range` loop over such a map by an explicit iteration-order
  function (an "oracle") whose only obligation is to yield a permutation of
  the stored entries.  No theorem is allowed to observe the backing order
  except through such an oracle.
* Go panics (failed type assertions, out-of-range slicing, `big.Int` division
  by zero) are modelled by the dedicated `Res.panicked` outcome, distinct from
  returned errors.
-/

set_option linter.unusedVariables false

namespace BinId

/-- Source span (start and end byte offsets) carried by tokens and nodes,
from `lexer.go`. -/
structure Position where
  Start : Nat
  End : Nat
deriving Repr, DecidableEq

/-- The kinds of language errors used throughout `eval.go` and the builtin
functions (`ErrorSyntax`, `ErrorType`, …).  The constant declarations
themselves are not among the provided sources (only their uses are); the
inventory below is exactly the set of kinds used by the sources and listed in
the spec's error envelope. -/
inductive ErrKind where
  | ErrorSyntax
  | ErrorType
  | ErrorAccess
  | ErrorDomain
  | ErrorValue
  | ErrorRuntime
deriving Repr, DecidableEq

/-- `LangError` with an error kind, as used (positionally and by field name)
throughout `eval.go` and the builtin builders. -/
structure LangError where
  Kind : ErrKind
  Position : Position
  Message : String
deriving Repr, DecidableEq

/-- The error values that flow through the applier: language errors, the
`ErrSkipped` sentinel, `ErrMagic`, `io.EOF`, plain `fmt.Errorf` errors and
wrapped errors (`fmt.Errorf("…: %w", err)`). -/
inductive GoErr where
  | lang (e : LangError)
  | skipped
  | magic (offset : Int)
  | eof
  | str (msg : String)
  | wrapped (msg : String) (inner : GoErr)
deriving Repr, DecidableEq

/-- Outcome of running a piece of the Go code: a value, a returned error, or a
runtime panic (which in Go aborts the program and is distinct from an error
return). -/
inductive Res (α : Type) where
  | ok (a : α)
  | err (e : GoErr)
  | panicked (msg : String)
deriving Repr

instance : Monad Res where
  pure a := .ok a
  bind r f := match r with
    | .ok a => f a
    | .err e => .err e
    | .panicked m => .panicked m

@[simp] theorem Res.bind_ok {α β : Type} (a : α) (f : α → Res β) :
    (Res.ok a >>= f) = f a := rfl

@[simp] theorem Res.bind_err {α β : Type} (e : GoErr) (f : α → Res β) :
    (Res.err e >>= f) = Res.err e := rfl

@[simp] theorem Res.bind_panicked {α β : Type} (m : String) (f : α → Res β) :
    (Res.panicked m >>= f) = Res.panicked m := rfl

@[simp] theorem Res.pure_eq {α : Type} (a : α) : (pure a : Res α) = Res.ok a := rfl

/-- `TypeName` is a Go string type; its constants are in `result.go`. -/
abbrev TypeName := String

def TypeMagic : TypeName := "magic"
def TypeBool : TypeName := "bool"
def TypeByte : TypeName := "byte"
def TypeStruct : TypeName := "struct"
def TypeArray : TypeName := "array"
def TypeVar : TypeName := "var"
def TypeEnum : TypeName := "enum"
def TypeUint8 : TypeName := "uint8"
def TypeUint16 : TypeName := "uint16"
def TypeUint24 : TypeName := "uint24"
def TypeUint32 : TypeName := "uint32"
def TypeUint64 : TypeName := "uint64"
def TypeInt8 : TypeName := "int8"
def TypeInt16 : TypeName := "int16"
def TypeInt24 : TypeName := "int24"
def TypeInt32 : TypeName := "int32"
def TypeInt64 : TypeName := "int64"
def TypeFloat32 : TypeName := "float32"
def TypeFloat64 : TypeName := "float64"

/-- `AvailableTypeNames` from `result.go`. -/
def AvailableTypeNames : List TypeName :=
  [TypeMagic, TypeBool, TypeByte, TypeStruct, TypeArray, TypeVar, TypeEnum,
   TypeUint8, TypeUint16, TypeUint24, TypeUint32, TypeUint64,
   TypeInt8, TypeInt16, TypeInt24, TypeInt32, TypeInt64,
   TypeFloat32, TypeFloat64]

/-- `AvailableNumericTypes` from `result.go`. -/
def AvailableNumericTypes : List TypeName :=
  [TypeUint8, TypeUint16, TypeUint24, TypeUint32, TypeUint64,
   TypeInt8, TypeInt16, TypeInt24, TypeInt32, TypeInt64,
   TypeFloat32, TypeFloat64]

/-- Token kinds from `lexer.go`. -/
inductive TokenKind where
  | TokenLParen | TokenRParen | TokenLBrace | TokenRBrace
  | TokenLBracket | TokenRBracket
  | TokenMul | TokenPow | TokenDiv | TokenPlus | TokenMinus
  | TokenComma | TokenColon | TokenAt | TokenDot | TokenAssign
  | TokenEquals | TokenLt | TokenGt | TokenLtEq | TokenGtEq
  | TokenBitwiseOr | TokenBitwiseAnd | TokenBitwiseNot | TokenBitwiseXor
  | TokenBitwiseLeft | TokenBitwiseRight
  | TokenRemainder | TokenNot | TokenNotEq | TokenLogicalAnd | TokenLogicalOr
  | TokenIdentifier | TokenKeyword | TokenInteger | TokenFloat | TokenString
deriving Repr, DecidableEq

/-- In the `lexer.go` snapshot the `%` kind is spelled `TokenModulo` while
`eval.go` names the same kind `TokenRemainder`; we use the evaluator's name
and provide the lexer's spelling as an alias. -/
def TokenKind.TokenModulo : TokenKind := .TokenRemainder

/-- A token: kind, literal text and source span, from `lexer.go`. -/
structure Token where
  Kind : TokenKind
  Value : String
  Position : Position
deriving Repr, DecidableEq

def KeywordTrue : String := "true"
def KeywordFalse : String := "false"

/-- AST nodes, as declared alongside the parser.  Go's `MapNode.Items` is a
`map[Node]Node`; since the node keys are pointers they are pairwise distinct
and every insertion adds an entry, so the items are represented here by the
entry list (iteration order of that Go map is unspecified, which is accounted
for where the entries are consumed). -/
inductive Node where
  | LiteralNode (token : Token)
  | UnaryOpNode (op : Token) (node : Node)
  | BinOpNode (left : Node) (op : Token) (right : Node)
  | MapNode (items : List (Node × Node)) (pos : Position)
  | ListNode (items : List Node) (pos : Position)
  | AttrNode (expr : Node) (attr : Node)
  | SubscriptNode (expr : Node) (item : Node)
  | CallNode (expr : Node) (arguments : List Node) (pos : Position)
deriving Repr

/-- `Node.Position()` as defined for each node kind. -/
def Node.position : Node → Position
  | .LiteralNode t => t.Position
  | .UnaryOpNode op n => ⟨op.Position.Start, n.position.End⟩
  | .BinOpNode l _ r => ⟨l.position.Start, r.position.End⟩
  | .MapNode _ pos => pos
  | .ListNode _ pos => pos
  | .AttrNode e a => ⟨e.position.Start, a.position.End⟩
  | .SubscriptNode e i => ⟨e.position.Start, i.position.End⟩
  | .CallNode _ _ pos => pos

/-- `LazyResult` values are Go closures.  Every lazy built by the sources
captures an AST subtree and re-evaluates it against a supplied ns
(`EvaluateMap`/`EvaluateList`), or — for calls — captures the call expression
so that argument evaluation happens at application time (§4.3b of the spec).
We defunctionalize them accordingly. -/
inductive LazyCode where
  | ofNode (n : Node)
  | callFn (callee : Node) (args : List Node) (pos : Position)
deriving Repr

/-- The tagged value type (`Result` in `result.go`).  Constructor names follow
the Go concrete types. -/
inductive Value where
  | IntegerResult (i : Int)
  | FloatResult (q : Rat)
  | BooleanResult (b : Bool)
  | StringResult (s : String)
  | IdentResult (name : String)
  | ListResult (items : List Value)
  | MapResult (entries : List (Value × Value))
  | LazyResult (code : LazyCode)
  | TypeResult (name : TypeName) (params : List Value)
deriving Repr

/-- The backing storage of a Go `map[Result]Result`.  The list order is an
artifact of the model; Go neither preserves nor exposes it (see the module
docstring). -/
abbrev GoMap := List (Value × Value)

/-- Namespaces are `map[Result]Result` values keyed (in every use in the
sources) by `IdentResult` values. -/
abbrev Namespace := GoMap

/-- `ResultKind` from `result.go`. -/
inductive ResultKind where
  | ResultInt | ResultFloat | ResultBoolean | ResultMap | ResultList
  | ResultString | ResultIdent | ResultLazy | ResultType
deriving Repr, DecidableEq

/-- `Kind()` of each result, from `result.go`. -/
def Value.Kind : Value → ResultKind
  | .IntegerResult _ => .ResultInt
  | .FloatResult _ => .ResultFloat
  | .BooleanResult _ => .ResultBoolean
  | .StringResult _ => .ResultString
  | .IdentResult _ => .ResultIdent
  | .ListResult _ => .ResultList
  | .MapResult _ => .ResultMap
  | .LazyResult _ => .ResultLazy
  | .TypeResult _ _ => .ResultType


/-! ## Go map semantics

Go `map[Result]Result` keys are interface values: indexing and assignment hash
the key and compare stored keys with `==` (shallow interface equality).  A key
whose dynamic type is uncomparable (`ListResult`, `MapResult`, `LazyResult`,
`TypeResult` — the latter contains a slice) panics at run time.  `IntegerResult`
holds a `*big.Int`, so two integer keys compare equal only when they alias the
same allocation; the sources never look up an integer key through an aliased
pointer, so the model soundly treats distinct integer keys as unequal. -/

/-- Whether a value's dynamic type is comparable as a Go map key / `==` operand. -/
def goComparable : Value → Bool
  | .IntegerResult _ | .FloatResult _ | .BooleanResult _
  | .StringResult _ | .IdentResult _ => true
  | _ => false

/-- Go `==` on two interface values (used for map keys, `slices.Contains`,
`slices.Equal`, `maps.Equal`).  Different dynamic types compare unequal; equal
uncomparable dynamic types panic; `IntegerResult` compares by `*big.Int`
pointer (see above). -/
def goShallowEq (a b : Value) : Res Bool :=
  match a, b with
  | .IntegerResult _, .IntegerResult _ => .ok false
  | .FloatResult x, .FloatResult y => .ok (x = y)
  | .BooleanResult x, .BooleanResult y => .ok (x = y)
  | .StringResult x, .StringResult y => .ok (x = y)
  | .IdentResult x, .IdentResult y => .ok (x = y)
  | .ListResult _, .ListResult _ => .panicked "comparing uncomparable type"
  | .MapResult _, .MapResult _ => .panicked "comparing uncomparable type"
  | .LazyResult _, .LazyResult _ => .panicked "comparing uncomparable type"
  | .TypeResult _ _, .TypeResult _ _ => .panicked "comparing uncomparable type"
  | _, _ => .ok false

/-- Indexing a Go map (`m[k]`): `none` when the key is absent. -/
def goMapGet (m : GoMap) (k : Value) : Res (Option Value) :=
  if goComparable k then
    .ok (go m)
  else
    .panicked "hash of unhashable type"
where
  go : GoMap → Option Value
    | [] => none
    | (k2, v) :: rest =>
      match goShallowEq k k2 with
      | .ok true => some v
      | _ => go rest

/-- Assigning into a Go map (`m[k] = v`): replaces the `==`-equal entry if one
exists, otherwise adds an entry. -/
def goMapAssign (m : GoMap) (k v : Value) : Res GoMap :=
  if goComparable k then
    .ok (go m)
  else
    .panicked "hash of unhashable type"
where
  go : GoMap → GoMap
    | [] => [(k, v)]
    | (k2, v2) :: rest =>
      match goShallowEq k k2 with
      | .ok true => (k, v) :: rest
      | _ => (k2, v2) :: go rest

/-- `len(m)` of a Go map: the number of stored entries. -/
def goMapLen (m : GoMap) : Nat := m.length

/-- `slices.Equal` on `[]Result` (element comparison is Go `==`). -/
def goSlicesEqual : List Value → List Value → Res Bool
  | [], [] => .ok true
  | [], _ :: _ => .ok false
  | _ :: _, [] => .ok false
  | a :: as_, b :: bs => do
    let e ← goShallowEq a b
    if e then goSlicesEqual as_ bs else pure false

/-- `maps.Equal` on two `map[Result]Result` values: equal lengths and every
key of the first maps to a `==`-equal value in the second. -/
def goMapsEqual (m1 m2 : GoMap) : Res Bool :=
  if goMapLen m1 ≠ goMapLen m2 then .ok false
  else go m1
where
  go : GoMap → Res Bool
    | [] => .ok true
    | (k, v) :: rest => do
      match ← goMapGet m2 k with
      | none => pure false
      | some v2 => do
        let e ← goShallowEq v v2
        if e then go rest else pure false

/-! ## Numeric helpers -/

/-- `math.Trunc` / Go float-to-integer conversion: truncation toward zero. -/
def ratTrunc (q : Rat) : Int := q.num.tdiv q.den

/-- `big.Int.Int64()`: the low 64 bits of the integer, as a signed value
(Go documents the result as the value when representable; otherwise the low
bits — two's complement wrap). -/
def int64wrap (i : Int) : Int :=
  let m := i.emod (2 ^ 64)
  if m < 2 ^ 63 then m else m - 2 ^ 64

/-- `big.Int.Uint64()` reduced to a shift count as in `uint(x.Uint64())`. -/
def uint64wrap (i : Int) : Nat := (i.emod (2 ^ 64)).toNat

/-- `strings.ToLower` restricted to ASCII (the only characters compared by the
sources against `"little"`/`"big"`). -/
def goToLower (s : String) : String :=
  ⟨s.data.map fun c =>
    if 65 ≤ c.toNat ∧ c.toNat ≤ 90 then Char.ofNat (c.toNat + 32) else c⟩

/-- Decimal digit test on a byte-character. -/
def isDigitChar (c : Char) : Bool := 48 ≤ c.toNat ∧ c.toNat ≤ 57

/-- `big.Int.SetString(s, 10)`: optional sign followed by at least one decimal
digit (no underscores are accepted with an explicit base). -/
def parseBase10 (s : String) : Option Int :=
  match s.data with
  | [] => none
  | '+' :: rest => digits rest
  | '-' :: rest => (digits rest).map Int.neg
  | l => digits l
where
  digits : List Char → Option Int
    | [] => none
    | l =>
      if l.all isDigitChar then
        some (l.foldl (fun acc c => acc * 10 + (c.toNat - 48 : Int)) 0)
      else none

/-- `big.Int.SetString(s, 0)` on the token texts the lexer can produce
(sign and decimal digits; a literal with a leading zero is read in base 8,
following Go syntax).  `0x`/`0b`/`0o` prefixes cannot reach this function
because `LexNumeric` only collects decimal digits and dots; underscores
likewise cannot appear.  Returns `none` when the text is not a valid
integer literal (e.g. octal text containing `8` or `9`). -/
def parseBase0 (s : String) : Option Int :=
  match s.data with
  | [] => none
  | '+' :: rest => core rest
  | '-' :: rest => (core rest).map Int.neg
  | l => core l
where
  core : List Char → Option Int
    | [] => none
    | '0' :: [] => some 0
    | '0' :: rest =>
      if rest.all fun c => 48 ≤ c.toNat ∧ c.toNat ≤ 55 then
        some (rest.foldl (fun acc c => acc * 8 + (c.toNat - 48 : Int)) 0)
      else none
    | l =>
      if l.all isDigitChar then
        some (l.foldl (fun acc c => acc * 10 + (c.toNat - 48 : Int)) 0)
      else none

/-- `strconv.ParseFloat` on the token texts the lexer can produce (decimal
digits with dots; valid only when exactly one dot is present, e.g. `1.25`).
The value is represented exactly (see the module docstring on floats). -/
def parseGoFloat (s : String) : Option Rat :=
  match s.data.splitOn '.' with
  | [intPart, fracPart] =>
    if (intPart ++ fracPart).all isDigitChar ∧ (intPart ++ fracPart) ≠ [] then
      let ip : Int := intPart.foldl (fun acc c => acc * 10 + (c.toNat - 48 : Int)) 0
      let fp : Int := fracPart.foldl (fun acc c => acc * 10 + (c.toNat - 48 : Int)) 0
      some ((ip : Rat) + (fp : Rat) / ((10 : Rat) ^ fracPart.length))
    else none
  | [l] =>
    if l.all isDigitChar ∧ l ≠ [] then
      some ((l.foldl (fun acc c => acc * 10 + (c.toNat - 48 : Int)) 0 : Int) : Rat)
    else none
  | _ => none

/-! ## Comparison and coercion operators (`eval.go`) -/

/-- `ErrCannotCompare` from `eval.go`. -/
def ErrCannotCompare : GoErr := .str "cannot compare these types"

/-- `ErrCannotBoolean` from `eval.go`. -/
def ErrCannotBoolean : GoErr := .str "cannot convert result to boolean"

/-- `doBinOpEquals` from `eval.go`.  The `Int`/`Float` cross comparisons are
false unless the float is integral; the `List`/`Map` branches use
`slices.Equal`/`maps.Equal`, whose element comparison is Go `==` (and may
panic, hence the `Res`). -/
def doBinOpEquals (left right : Value) : Res Bool :=
  match left, right with
  | .IntegerResult l, .IntegerResult r => .ok (l = r)
  | .FloatResult l, .FloatResult r => .ok (l = r)
  | .IntegerResult l, .FloatResult r =>
      if r.den ≠ 1 then .ok false else .ok (l = r.num)
  | .FloatResult l, .IntegerResult r =>
      if l.den ≠ 1 then .ok false else .ok (l.num = r)
  | .StringResult l, .StringResult r => .ok (l = r)
  | .BooleanResult l, .BooleanResult r => .ok (l = r)
  | .ListResult l, .ListResult r => goSlicesEqual l r
  | .MapResult l, .MapResult r => goMapsEqual l r
  | _, _ => .ok false

/-- `doBinOpLt` from `eval.go` (mixed `Int`/`Float` comparisons go through
`big.Int.Float64`, idealized as exact; strings compare byte-wise). -/
def doBinOpLt (left right : Value) : Res Bool :=
  match left, right with
  | .IntegerResult l, .IntegerResult r => .ok (l < r)
  | .FloatResult l, .FloatResult r => .ok (l < r)
  | .IntegerResult l, .FloatResult r => .ok ((l : Rat) < r)
  | .FloatResult l, .IntegerResult r => .ok (l < (r : Rat))
  | .StringResult l, .StringResult r => .ok (l < r)
  | _, _ => .err ErrCannotCompare

/-- `doBinOpGt` from `eval.go`. -/
def doBinOpGt (left right : Value) : Res Bool :=
  match left, right with
  | .IntegerResult l, .IntegerResult r => .ok (r < l)
  | .FloatResult l, .FloatResult r => .ok (r < l)
  | .IntegerResult l, .FloatResult r => .ok (r < (l : Rat))
  | .FloatResult l, .IntegerResult r => .ok ((r : Rat) < l)
  | .StringResult l, .StringResult r => .ok (r < l)
  | _, _ => .err ErrCannotCompare

/-- `ResultAsBoolean` from `eval.go`. -/
def ResultAsBoolean : Value → Res Bool
  | .IntegerResult i => .ok (i ≠ 0)
  | .FloatResult q => .ok (q ≠ 0)
  | .BooleanResult b => .ok b
  | .MapResult m => .ok (0 < goMapLen m)
  | .ListResult l => .ok (0 < l.length)
  | .StringResult s => .ok (0 < s.length)
  | _ => .err ErrCannotBoolean

/-- `NumberResultAsInt` from `result.go`: integers through `big.Int.Int64`
(low 64 bits), floats truncated toward zero. -/
def NumberResultAsInt : Value → Res Int
  | .IntegerResult i => .ok (int64wrap i)
  | .FloatResult q => .ok (ratTrunc q)
  | _ => .err (.str "result is not a numeric type")

/-- `IntegerInBounds` from `result.go`.  Its `switch` has no default: for a
type name outside the ten integer types the two bounds stay `nil` and the
`big.Int.Cmp` calls dereference a nil pointer, i.e. panic. -/
def IntegerInBounds (bound : TypeName) (value : Int) : Res Bool :=
  if bound = TypeUint8 then .ok (decide (0 ≤ value ∧ value ≤ 0xff))
  else if bound = TypeUint16 then .ok (decide (0 ≤ value ∧ value ≤ 0xffff))
  else if bound = TypeUint24 then .ok (decide (0 ≤ value ∧ value ≤ 0xffffff))
  else if bound = TypeUint32 then .ok (decide (0 ≤ value ∧ value ≤ 0xffffffff))
  else if bound = TypeUint64 then .ok (decide (0 ≤ value ∧ value ≤ 0xffffffffffffffff))
  else if bound = TypeInt8 then .ok (decide (-128 ≤ value ∧ value ≤ 127))
  else if bound = TypeInt16 then .ok (decide (-32768 ≤ value ∧ value ≤ 32767))
  else if bound = TypeInt24 then .ok (decide (-8388608 ≤ value ∧ value ≤ 8388607))
  else if bound = TypeInt32 then .ok (decide (-2147483648 ≤ value ∧ value ≤ 2147483647))
  else if bound = TypeInt64 then
    .ok (decide (-9223372036854775808 ≤ value ∧ value ≤ 9223372036854775807))
  else .panicked "nil pointer dereference"

/-! ## Kind assertions (`result.go`)

`ResultIs[T]` returns an error when the result kind differs from the requested
one.  `GetKeyByIdent[T]` looks a string key up as an `IdentResult`; a missing
required key is an error, a missing optional key yields the zero value
(modelled `none`), and a present value of the wrong kind fails the final type
assertion, i.e. panics. -/

def ResultIsMap : Value → Res GoMap
  | .MapResult m => .ok m
  | _ => .err (.str "expected result of type Map")

def ResultIsList : Value → Res (List Value)
  | .ListResult l => .ok l
  | _ => .err (.str "expected result of type List")

def ResultIsString : Value → Res String
  | .StringResult s => .ok s
  | _ => .err (.str "expected result of type String")

def ResultIsIdent : Value → Res String
  | .IdentResult s => .ok s
  | _ => .err (.str "expected result of type Identifier")

def ResultIsInt : Value → Res Int
  | .IntegerResult i => .ok i
  | _ => .err (.str "expected result of type Int")

def ResultIsBool : Value → Res Bool
  | .BooleanResult b => .ok b
  | _ => .err (.str "expected result of type Boolean")

def ResultIsLazy : Value → Res LazyCode
  | .LazyResult c => .ok c
  | _ => .err (.str "expected result of type Lazy")

def ResultIsType : Value → Res (TypeName × List Value)
  | .TypeResult n ps => .ok (n, ps)
  | _ => .err (.str "expected result of type Type")

def GetKeyByIdentAny (mapping : GoMap) (key : String) (required : Bool) :
    Res (Option Value) := do
  match ← goMapGet mapping (.IdentResult key) with
  | none =>
    if required then .err (.str ("missing key " ++ key ++ " is required"))
    else .ok none
  | some v => .ok (some v)

def GetKeyByIdentMap (mapping : GoMap) (key : String) (required : Bool) :
    Res (Option GoMap) := do
  match ← GetKeyByIdentAny mapping key required with
  | none => .ok none
  | some (.MapResult m) => .ok (some m)
  | some _ => .panicked "type assertion failed"

def GetKeyByIdentList (mapping : GoMap) (key : String) (required : Bool) :
    Res (Option (List Value)) := do
  match ← GetKeyByIdentAny mapping key required with
  | none => .ok none
  | some (.ListResult l) => .ok (some l)
  | some _ => .panicked "type assertion failed"

def GetKeyByIdentString (mapping : GoMap) (key : String) (required : Bool) :
    Res (Option String) := do
  match ← GetKeyByIdentAny mapping key required with
  | none => .ok none
  | some (.StringResult s) => .ok (some s)
  | some _ => .panicked "type assertion failed"

def GetKeyByIdentIdent (mapping : GoMap) (key : String) (required : Bool) :
    Res (Option String) := do
  match ← GetKeyByIdentAny mapping key required with
  | none => .ok none
  | some (.IdentResult s) => .ok (some s)
  | some _ => .panicked "type assertion failed"

def GetKeyByIdentInt (mapping : GoMap) (key : String) (required : Bool) :
    Res (Option Int) := do
  match ← GetKeyByIdentAny mapping key required with
  | none => .ok none
  | some (.IntegerResult i) => .ok (some i)
  | some _ => .panicked "type assertion failed"

def GetKeyByIdentBool (mapping : GoMap) (key : String) (required : Bool) :
    Res (Option Bool) := do
  match ← GetKeyByIdentAny mapping key required with
  | none => .ok none
  | some (.BooleanResult b) => .ok (some b)
  | some _ => .panicked "type assertion failed"

def GetKeyByIdentLazy (mapping : GoMap) (key : String) (required : Bool) :
    Res (Option LazyCode) := do
  match ← GetKeyByIdentAny mapping key required with
  | none => .ok none
  | some (.LazyResult c) => .ok (some c)
  | some _ => .panicked "type assertion failed"

/-! ## The evaluator (`eval.go`) -/

mutual

/-- `MustEvaluateLazily` from `eval.go`.  The Go function also returns an
error, but its only error paths are the unreachable default branches for node
kinds outside the eight the AST can contain, so the embedding is total. -/
def MustEvaluateLazily : Node → Bool
  | .BinOpNode l _ r => MustEvaluateLazily l || MustEvaluateLazily r
  | .UnaryOpNode _ n => MustEvaluateLazily n
  | .AttrNode _ _ => true
  | .SubscriptNode e i => MustEvaluateLazily e || MustEvaluateLazily i
  | .LiteralNode t =>
    match t.Kind with
    | .TokenIdentifier => !(AvailableTypeNames.contains t.Value)
    | _ => false
  | .MapNode _ _ => false
  | .ListNode _ _ => false
  | .CallNode e args _ => MustEvaluateLazily e || mustEvaluateAnyLazily args

/-- The argument loop of `MustEvaluateLazily` for a call node. -/
def mustEvaluateAnyLazily : List Node → Bool
  | [] => false
  | n :: rest => MustEvaluateLazily n || mustEvaluateAnyLazily rest

end

/-- `math.Pow` idealized: exact for integral exponents.  A non-integral
exponent produces an irrational value which `float64` merely approximates;
the model returns `0` there, and no theorem below depends on that branch. -/
def ratPow (l r : Rat) : Rat :=
  if r.den = 1 then
    if 0 ≤ r.num then l ^ r.num.toNat else (l ^ r.num.natAbs)⁻¹
  else 0

/-- `math.Remainder` (IEEE remainder: `x - y*Round(x/y)` with the quotient
rounded to nearest), idealized on rationals. -/
def ratIeeeRem (x y : Rat) : Rat := x - y * (round (x / y) : Int)

/-- `EvaluateLiteral` from `eval.go` (the token dispatch; the surrounding
node only contributes its position). -/
def evaluateLiteralTok (t : Token) (ns : Option Namespace) : Res Value :=
  match t.Kind with
  | .TokenInteger =>
    match parseBase0 t.Value with
    | some n => .ok (.IntegerResult n)
    | none => .err (.lang ⟨.ErrorSyntax, t.Position, "invalid integer literal"⟩)
  | .TokenFloat =>
    match parseGoFloat t.Value with
    | some q => .ok (.FloatResult q)
    | none => .err (.lang ⟨.ErrorSyntax, t.Position, "invalid float literal"⟩)
  | .TokenIdentifier =>
    if AvailableTypeNames.contains t.Value then
      .ok (.TypeResult t.Value [])
    else
      match ns with
      | some n => do
        match ← goMapGet n (.IdentResult t.Value) with
        | some v => pure v
        | none => .err (.lang ⟨.ErrorAccess, t.Position, t.Value ++ " is not defined"⟩)
      | none => .ok (.IdentResult t.Value)
  | .TokenKeyword =>
    if t.Value = KeywordTrue then .ok (.BooleanResult true)
    else if t.Value = KeywordFalse then .ok (.BooleanResult false)
    else .err (.lang ⟨.ErrorSyntax, t.Position, "unknown keyword"⟩)
  | .TokenString => .ok (.StringResult t.Value)
  | _ => .err (.lang ⟨.ErrorRuntime, t.Position, "evaluation undefined for literal type"⟩)

/-- The operator dispatch of `EvaluateBinOp` from `eval.go`, applied to the
two already-evaluated operands (the Go function evaluates both children first
— note that `&&`/`||` therefore do evaluate both sides and only skip the
boolean conversion of the right side). -/
def binOpValues (opKind : TokenKind) (pos : Position) (left right : Value) : Res Value :=
  let typeErr : Res Value :=
    .err (.lang ⟨.ErrorType, pos, "binary operation is not defined on these types"⟩)
  match opKind with
  | .TokenPlus =>
    match left, right with
    | .IntegerResult l, .IntegerResult r => .ok (.IntegerResult (l + r))
    | .FloatResult l, .FloatResult r => .ok (.FloatResult (l + r))
    | .FloatResult l, .IntegerResult r => .ok (.FloatResult (l + (r : Rat)))
    | .IntegerResult l, .FloatResult r => .ok (.FloatResult ((l : Rat) + r))
    | .StringResult l, .StringResult r => .ok (.StringResult (l ++ r))
    | _, _ => typeErr
  | .TokenMinus =>
    match left, right with
    | .IntegerResult l, .IntegerResult r => .ok (.IntegerResult (l - r))
    | .FloatResult l, .FloatResult r => .ok (.FloatResult (l - r))
    | .FloatResult l, .IntegerResult r => .ok (.FloatResult (l - (r : Rat)))
    | .IntegerResult l, .FloatResult r => .ok (.FloatResult ((l : Rat) - r))
    | _, _ => typeErr
  | .TokenMul =>
    match left, right with
    | .IntegerResult l, .IntegerResult r => .ok (.IntegerResult (l * r))
    | .FloatResult l, .FloatResult r => .ok (.FloatResult (l * r))
    | .FloatResult l, .IntegerResult r => .ok (.FloatResult (l * (r : Rat)))
    | .IntegerResult l, .FloatResult r => .ok (.FloatResult ((l : Rat) * r))
    | _, _ => typeErr
  | .TokenPow =>
    match left, right with
    | .IntegerResult l, .IntegerResult r =>
      let p := ratPow (l : Rat) (r : Rat)
      if p.den ≠ 1 then .ok (.FloatResult p) else .ok (.IntegerResult p.num)
    | .FloatResult l, .FloatResult r => .ok (.FloatResult (ratPow l r))
    | .FloatResult l, .IntegerResult r => .ok (.FloatResult (ratPow l (r : Rat)))
    | .IntegerResult l, .FloatResult r => .ok (.FloatResult (ratPow (l : Rat) r))
    | _, _ => typeErr
  | .TokenDiv =>
    match left, right with
    | .IntegerResult l, .IntegerResult r =>
      if (r : Rat) = 0 then .err (.lang ⟨.ErrorDomain, pos, "division by zero"⟩)
      else .ok (.FloatResult ((l : Rat) / (r : Rat)))
    | .FloatResult l, .FloatResult r =>
      if r = 0 then .err (.lang ⟨.ErrorDomain, pos, "division by zero"⟩)
      else .ok (.FloatResult (l / r))
    | .FloatResult l, .IntegerResult r =>
      if (r : Rat) = 0 then .err (.lang ⟨.ErrorDomain, pos, "division by zero"⟩)
      else .ok (.FloatResult (l / (r : Rat)))
    | .IntegerResult l, .FloatResult r =>
      if r = 0 then .err (.lang ⟨.ErrorDomain, pos, "division by zero"⟩)
      else .ok (.FloatResult ((l : Rat) / r))
    | _, _ => typeErr
  | .TokenRemainder =>
    match left, right with
    | .IntegerResult l, .IntegerResult r =>
      -- The source's zero test is `right.(IntegerResult).Int == big.NewInt(0)`:
      -- it compares the stored *big.Int pointer with a freshly allocated one,
      -- so it is always false and the guarded DomainError is unreachable.
      -- Control therefore always reaches big.Int.Rem, which panics on a zero
      -- divisor.
      if r = 0 then .panicked "division by zero"
      else .ok (.IntegerResult (l.tmod r))
    | .FloatResult l, .FloatResult r =>
      if r = 0 then .err (.lang ⟨.ErrorDomain, pos, "float remainder by zero"⟩)
      else .ok (.FloatResult (ratIeeeRem l r))
    | .FloatResult l, .IntegerResult r =>
      if (r : Rat) = 0 then .err (.lang ⟨.ErrorDomain, pos, "float remainder by zero"⟩)
      else .ok (.FloatResult (ratIeeeRem l (r : Rat)))
    | .IntegerResult l, .FloatResult r =>
      if r = 0 then .err (.lang ⟨.ErrorDomain, pos, "float remainder by zero"⟩)
      else .ok (.FloatResult (ratIeeeRem (l : Rat) r))
    | _, _ => typeErr
  | .TokenBitwiseLeft =>
    match left, right with
    | .IntegerResult l, .IntegerResult r =>
      .ok (.IntegerResult (l * 2 ^ uint64wrap r))
    | _, _ => typeErr
  | .TokenBitwiseRight =>
    match left, right with
    | .IntegerResult l, .IntegerResult r =>
      .ok (.IntegerResult (Int.fdiv l (2 ^ uint64wrap r)))
    | _, _ => typeErr
  | .TokenBitwiseAnd =>
    match left, right with
    | .IntegerResult l, .IntegerResult r => .ok (.IntegerResult (Int.land l r))
    | _, _ => typeErr
  | .TokenBitwiseOr =>
    match left, right with
    | .IntegerResult l, .IntegerResult r => .ok (.IntegerResult (Int.lor l r))
    | _, _ => typeErr
  | .TokenBitwiseXor =>
    match left, right with
    | .IntegerResult l, .IntegerResult r => .ok (.IntegerResult (Int.xor l r))
    | _, _ => typeErr
  | .TokenEquals => do
    pure (.BooleanResult (← doBinOpEquals left right))
  | .TokenNotEq => do
    pure (.BooleanResult (!(← doBinOpEquals left right)))
  | .TokenLt =>
    match doBinOpLt left right with
    | .ok b => .ok (.BooleanResult b)
    | .err _ => typeErr
    | .panicked m => .panicked m
  | .TokenLtEq =>
    match doBinOpLt left right with
    | .ok b => do pure (.BooleanResult (b || (← doBinOpEquals left right)))
    | .err _ => typeErr
    | .panicked m => .panicked m
  | .TokenGt =>
    match doBinOpGt left right with
    | .ok b => .ok (.BooleanResult b)
    | .err _ => typeErr
    | .panicked m => .panicked m
  | .TokenGtEq =>
    match doBinOpGt left right with
    | .ok b => do pure (.BooleanResult (b || (← doBinOpEquals left right)))
    | .err _ => typeErr
    | .panicked m => .panicked m
  | .TokenLogicalOr =>
    match ResultAsBoolean left with
    | .err _ =>
      .err (.lang ⟨.ErrorRuntime, pos, "left operand cannot be converted to be a boolean"⟩)
    | .panicked m => .panicked m
    | .ok leftBool =>
      if leftBool then .ok (.BooleanResult true)
      else
        match ResultAsBoolean right with
        | .err _ =>
          .err (.lang ⟨.ErrorRuntime, pos, "right operand cannot be converted to be a boolean"⟩)
        | .panicked m => .panicked m
        | .ok rightBool => .ok (.BooleanResult (leftBool || rightBool))
  | .TokenLogicalAnd =>
    match ResultAsBoolean left with
    | .err _ =>
      .err (.lang ⟨.ErrorRuntime, pos, "left operand cannot be converted to be a boolean"⟩)
    | .panicked m => .panicked m
    | .ok leftBool =>
      if !leftBool then .ok (.BooleanResult false)
      else
        match ResultAsBoolean right with
        | .err _ =>
          .err (.lang ⟨.ErrorRuntime, pos, "right operand cannot be converted to be a boolean"⟩)
        | .panicked m => .panicked m
        | .ok rightBool => .ok (.BooleanResult (leftBool && rightBool))
  | _ => .err (.lang ⟨.ErrorRuntime, pos, "behavior undefined for binary operation"⟩)

/-- The operator dispatch of `EvaluateUnaryOp` from `eval.go`, for the four
operator kinds that evaluate their operand (`+ - ~ !`), applied to the
evaluated operand. -/
def unaryOpOn (opKind : TokenKind) (pos : Position) (v : Value) : Res Value :=
  match opKind with
  | .TokenPlus =>
    match v with
    | .IntegerResult i => .ok (.IntegerResult i)
    | .FloatResult q => .ok (.FloatResult q)
    | _ => .err (.lang ⟨.ErrorType, pos, "does not support unary operation"⟩)
  | .TokenMinus =>
    match v with
    | .IntegerResult i => .ok (.IntegerResult (-i))
    | .FloatResult q => .ok (.FloatResult (-q))
    | _ => .err (.lang ⟨.ErrorType, pos, "does not support unary operation"⟩)
  | .TokenBitwiseNot =>
    match v with
    | .IntegerResult i => .ok (.IntegerResult (-(i + 1)))
    | _ => .err (.lang ⟨.ErrorType, pos, "does not support unary operation"⟩)
  | .TokenNot =>
    match ResultAsBoolean v with
    | .err _ => .err (.lang ⟨.ErrorRuntime, pos, "cannot be converted to be a boolean"⟩)
    | .panicked m => .panicked m
    | .ok b => .ok (.BooleanResult (!b))
  | _ => .err (.lang ⟨.ErrorRuntime, pos, "undefined binary operation"⟩)

/-- The lookup dispatch of `EvaluateSubscript` from `eval.go`, applied to the
evaluated target and index. -/
def subscriptOn (pos : Position) (ns : Option Namespace) (expr item : Value) :
    Res Value := do
  let found : Option Value ←
    match expr with
    | .IdentResult _ => goMapGet (ns.getD []) item
    | .MapResult m => goMapGet m item
    | .TypeResult name _ =>
      if name = TypeByte then
        return .TypeResult TypeByte [item]
      else
        Res.err (.lang ⟨.ErrorType, pos, "type does not allow type parameters"⟩)
    | .ListResult l =>
      match item with
      | .IntegerResult n =>
        let intVal := int64wrap n
        if intVal ≥ (l.length : Int) then
          Res.err (.lang ⟨.ErrorAccess, pos, "index out of bounds"⟩)
        else if intVal < 0 then
          -- Go only checks the upper bound; a negative index panics at the
          -- slice access.
          Res.panicked "index out of range"
        else
          match l.get? intVal.toNat with
          | some v => pure (some v)
          | none => Res.panicked "index out of range"
      | _ => Res.err (.lang ⟨.ErrorType, pos, "list indices must be Int"⟩)
    | _ => Res.err (.lang ⟨.ErrorType, pos, "object does not support subscript access"⟩)
  match found with
  | some v => pure v
  | none => Res.err (.lang ⟨.ErrorAccess, pos, "object does not have a member or key with that name"⟩)

/-- The lookup dispatch of `EvaluateAttr` from `eval.go`, applied to the
evaluated target and attribute. -/
def attrOn (pos : Position) (ns : Option Namespace) (expr attr : Value) :
    Res Value := do
  let found : Option Value ←
    match expr with
    | .IdentResult _ => goMapGet (ns.getD []) attr
    | .MapResult m => goMapGet m attr
    | _ => Res.err (.lang ⟨.ErrorType, pos, "object does not support attribute access"⟩)
  match found with
  | some v => pure v
  | none => Res.err (.lang ⟨.ErrorAccess, pos, "object does not have a member with that name"⟩)

mutual

/-- `Evaluate` from `eval.go`: reduces a node against an optional namespace
(Go passes `nil` for "no namespace").

The sources provide no `NodeCall` arm for this function even though
`MustEvaluateLazily` and the debug tree printer handle calls and the seven
builtin builders exist (unused) in the sources.  The `CallNode` arm below is
therefore *modelled from the spec*: per §4.3/§4.3b a call always evaluates to
a `Lazy` so that argument evaluation happens in the applier's current
namespace; applying that lazy is `applyLazy` below. -/
def Evaluate (tree : Node) (ns : Option Namespace) : Res Value :=
  match tree with
  | .BinOpNode l op r => do
    let lv ← Evaluate l ns
    let rv ← Evaluate r ns
    binOpValues op.Kind (Node.position (.BinOpNode l op r)) lv rv
  | .UnaryOpNode op n =>
    match op.Kind with
    | .TokenPlus | .TokenMinus | .TokenBitwiseNot | .TokenNot => do
      let v ← Evaluate n ns
      unaryOpOn op.Kind (Node.position (.UnaryOpNode op n)) v
    | _ =>
      .err (.lang ⟨.ErrorRuntime, Node.position (.UnaryOpNode op n), "undefined binary operation"⟩)
  | .LiteralNode t => evaluateLiteralTok t ns
  | .MapNode items pos => do
    let entries ← evalMapEntries items ns []
    pure (.MapResult entries)
  | .ListNode items pos => do
    let vals ← evalListItems items ns
    pure (.ListResult vals)
  | .AttrNode e a => do
    let ev ← Evaluate e ns
    let av ← Evaluate a none
    attrOn (Node.position (.AttrNode e a)) ns ev av
  | .SubscriptNode e i => do
    let ev ← Evaluate e ns
    let iv ← Evaluate i ns
    subscriptOn (Node.position (.SubscriptNode e i)) ns ev iv
  | .CallNode e args pos => .ok (.LazyResult (.callFn e args pos))

/-- The entry loop of `EvaluateMap`: each entry value is wrapped as a lazy
when `MustEvaluateLazily` says so, and the accumulated Go map is built with
map assignment (later duplicate keys overwrite). -/
def evalMapEntries (items : List (Node × Node)) (ns : Option Namespace)
    (acc : GoMap) : Res GoMap :=
  match items with
  | [] => .ok acc
  | (key, val) :: rest => do
    let keyRes ← Evaluate key ns
    let valueRes ←
      if MustEvaluateLazily val then pure (Value.LazyResult (.ofNode val))
      else Evaluate val ns
    let acc2 ← goMapAssign acc keyRes valueRes
    evalMapEntries rest ns acc2

/-- The item loop of `EvaluateList`. -/
def evalListItems (items : List Node) (ns : Option Namespace) :
    Res (List Value) :=
  match items with
  | [] => .ok []
  | val :: rest => do
    let v ←
      if MustEvaluateLazily val then pure (Value.LazyResult (.ofNode val))
      else Evaluate val ns
    let vs ← evalListItems rest ns
    pure (v :: vs)

end

/-! ## Builtin functions

The seven builders below are translated from the builtin-functions source file
(provided alongside `lexer.go`).  Each Go builder returns a `LazyResult`
closure over the call node and the argument values; the definitions here are
those closures' bodies (they ignore the namespace they receive). -/

/-- Position of the i-th argument node (`node.Arguments[i].Position()`);
only consulted after the arity check has ensured the index exists. -/
def argPos (argNodes : List Node) (i : Nat) : Position :=
  ((argNodes.get? i).map Node.position).getD ⟨0, 0⟩

/-- `slices.Contains` on `[]Result` (element comparison is Go `==`). -/
def goSlicesContains (l : List Value) (x : Value) : Res Bool :=
  match l with
  | [] => .ok false
  | a :: rest => do
    if (← goShallowEq a x) then pure true else goSlicesContains rest x

/-- `buildSliceFn`: `slice(target, start, end)`.  Go re-slices with
`target[start:min(end,len)]` after only checking `start ≥ len`, so a negative
or inverted range panics. -/
def buildSliceFn (pos : Position) (argNodes : List Node) (args : List Value) : Res Value :=
  if args.length ≠ 3 then
    .err (.lang ⟨.ErrorType, pos, "slice requires 3 arguments"⟩)
  else
    match args with
    | [target, startV, endV] =>
      match startV with
      | .IntegerResult st =>
        match endV with
        | .IntegerResult en =>
          let s := int64wrap st
          match target with
          | .ListResult l =>
            if s ≥ (l.length : Int) then
              .err (.lang ⟨.ErrorValue, argPos argNodes 1, "start argument out of bounds"⟩)
            else
              let e := min (int64wrap en) (l.length : Int)
              if 0 ≤ s ∧ s ≤ e then
                .ok (.ListResult ((l.drop s.toNat).take (e - s).toNat))
              else .panicked "slice bounds out of range"
          | .StringResult str =>
            if s ≥ (str.length : Int) then
              .err (.lang ⟨.ErrorValue, argPos argNodes 1, "start argument out of bounds"⟩)
            else
              let e := min (int64wrap en) (str.length : Int)
              if 0 ≤ s ∧ s ≤ e then
                .ok (.StringResult ((str.drop s.toNat).take (e - s).toNat))
              else .panicked "slice bounds out of range"
          | _ =>
            .err (.lang ⟨.ErrorType, argPos argNodes 0,
              "first argument of slice must be a list or string"⟩)
        | _ =>
          .err (.lang ⟨.ErrorType, argPos argNodes 2,
            "end argument of slice must be an integer"⟩)
      | _ =>
        .err (.lang ⟨.ErrorType, argPos argNodes 1,
          "start argument of slice must be an integer"⟩)
    | _ => .err (.lang ⟨.ErrorType, pos, "slice requires 3 arguments"⟩)

/-- `buildHasFn`: `has(list, x)` via `slices.Contains`. -/
def buildHasFn (pos : Position) (argNodes : List Node) (args : List Value) : Res Value :=
  if args.length ≠ 2 then
    .err (.lang ⟨.ErrorType, pos, "has requires 2 arguments"⟩)
  else
    match args with
    | [target, x] =>
      match target with
      | .ListResult l => do pure (.BooleanResult (← goSlicesContains l x))
      | _ => .err (.lang ⟨.ErrorType, pos, "first argument of has must be a list"⟩)
    | _ => .err (.lang ⟨.ErrorType, pos, "has requires 2 arguments"⟩)

/-- `buildParseIntFn`: `parseInt(string)` via `big.Int.SetString(…, 10)`. -/
def buildParseIntFn (pos : Position) (args : List Value) : Res Value :=
  if args.length ≠ 1 then
    .err (.lang ⟨.ErrorType, pos, "parseInt requires 1 argument"⟩)
  else
    match args with
    | [.StringResult s] =>
      match parseBase10 s with
      | some n => .ok (.IntegerResult n)
      | none => .err (.lang ⟨.ErrorValue, pos, "parseInt: invalid input"⟩)
    | [_] => .err (.lang ⟨.ErrorType, pos, "parseInt argument must be a string"⟩)
    | _ => .err (.lang ⟨.ErrorType, pos, "parseInt requires 1 argument"⟩)

/-- `buildCeilFn`. -/
def buildCeilFn (pos : Position) (args : List Value) : Res Value :=
  if args.length ≠ 1 then
    .err (.lang ⟨.ErrorType, pos, "ceil requires 1 argument"⟩)
  else
    match args with
    | [.IntegerResult i] => .ok (.IntegerResult i)
    | [.FloatResult q] => .ok (.IntegerResult ⌈q⌉)
    | [_] => .err (.lang ⟨.ErrorType, pos, "ceil argument must be numeric"⟩)
    | _ => .err (.lang ⟨.ErrorType, pos, "ceil requires 1 argument"⟩)

/-- `buildFloorFn`. -/
def buildFloorFn (pos : Position) (args : List Value) : Res Value :=
  if args.length ≠ 1 then
    .err (.lang ⟨.ErrorType, pos, "floor requires 1 argument"⟩)
  else
    match args with
    | [.IntegerResult i] => .ok (.IntegerResult i)
    | [.FloatResult q] => .ok (.IntegerResult ⌊q⌋)
    | [_] => .err (.lang ⟨.ErrorType, pos, "floor argument must be numeric"⟩)
    | _ => .err (.lang ⟨.ErrorType, pos, "floor requires 1 argument"⟩)

/-- `buildAbsFn`. -/
def buildAbsFn (pos : Position) (args : List Value) : Res Value :=
  if args.length ≠ 1 then
    .err (.lang ⟨.ErrorType, pos, "abs requires 1 argument"⟩)
  else
    match args with
    | [.IntegerResult i] => .ok (.IntegerResult |i|)
    | [.FloatResult q] => .ok (.FloatResult |q|)
    | [_] => .err (.lang ⟨.ErrorType, pos, "abs argument must be numeric"⟩)
    | _ => .err (.lang ⟨.ErrorType, pos, "abs requires 1 argument"⟩)

/-- `buildLenFn`: byte length for strings (Go `len` on a string counts
bytes, which coincides with the character count under the byte-character
convention of this model). -/
def buildLenFn (pos : Position) (args : List Value) : Res Value :=
  if args.length ≠ 1 then
    .err (.lang ⟨.ErrorType, pos, "len requires 1 argument"⟩)
  else
    match args with
    | [.ListResult l] => .ok (.IntegerResult l.length)
    | [.MapResult m] => .ok (.IntegerResult (goMapLen m))
    | [.StringResult s] => .ok (.IntegerResult s.length)
    | [_] => .err (.lang ⟨.ErrorType, pos, "len: incompatible type"⟩)
    | _ => .err (.lang ⟨.ErrorType, pos, "len requires 1 argument"⟩)

/-- The names of the builtin functions (§4.3b of the spec). -/
def builtinNames : List String :=
  ["slice", "has", "parseInt", "ceil", "floor", "abs", "len"]

/-- Modelled from the spec: the dispatch from a builtin's name to its builder
(§4.3b).  The builders themselves are translated from the sources above; only
this table, and the call evaluation around it, are not in the provided
sources. -/
def applyBuiltin (name : String) (pos : Position) (argNodes : List Node)
    (args : List Value) : Res Value :=
  if name = "slice" then buildSliceFn pos argNodes args
  else if name = "has" then buildHasFn pos argNodes args
  else if name = "parseInt" then buildParseIntFn pos args
  else if name = "ceil" then buildCeilFn pos args
  else if name = "floor" then buildFloorFn pos args
  else if name = "abs" then buildAbsFn pos args
  else if name = "len" then buildLenFn pos args
  else .err (.lang ⟨.ErrorAccess, pos, "unknown function"⟩)

/-- Argument evaluation for a call closure, in order. -/
def evalCallArgs (args : List Node) (ns : Option Namespace) : Res (List Value) :=
  match args with
  | [] => .ok []
  | a :: rest => do
    let v ← Evaluate a ns
    let vs ← evalCallArgs rest ns
    pure (v :: vs)

/-- Applying a `LazyResult` closure to a namespace (Go invokes the closure
with the namespace, possibly `nil`).

* A closure built by `EvaluateMap`/`EvaluateList` re-evaluates its captured
  node with the supplied namespace.
* The call-closure branch is *modelled from the spec*: the sources do not
  include the call evaluation code (only the unused builtin builders, the
  `MustEvaluateLazily` arm and the debug printer refer to calls).  Per
  §4.3/§4.3b the callee is evaluated to an `Ident` naming a builtin (the
  callee is resolved without a namespace, since builtin names are not
  namespace entries), the arguments are evaluated in the supplied namespace,
  and the corresponding builtin is applied. -/
def applyLazy (code : LazyCode) (ns : Option Namespace) : Res Value :=
  match code with
  | .ofNode n => Evaluate n ns
  | .callFn callee args pos => do
    let calleeRes ← Evaluate callee none
    match calleeRes with
    | .IdentResult name => do
      let argVals ← evalCallArgs args ns
      applyBuiltin name pos args argVals
    | _ => .err (.lang ⟨.ErrorType, callee.position, "callee does not name a builtin"⟩)

/-! ## Lazy-aware helpers from `result.go` -/

/-- `EvalResultIs[MapResult]`: evaluate a lazy first, then require a map. -/
def EvalResultIsMap (res : Value) (ns : Namespace) : Res GoMap := do
  let evalRes ←
    match res with
    | .LazyResult c => applyLazy c (some ns)
    | _ => pure res
  match evalRes with
  | .MapResult m => pure m
  | _ => .err (.str "expected result of type Map")

/-- `EvalResultIs[TypeResult]`. -/
def EvalResultIsType (res : Value) (ns : Namespace) : Res (TypeName × List Value) := do
  let evalRes ←
    match res with
    | .LazyResult c => applyLazy c (some ns)
    | _ => pure res
  match evalRes with
  | .TypeResult n ps => pure (n, ps)
  | _ => .err (.str "expected result of type Type")

/-- `GetEvalKeyByIdent[T]`: like `GetKeyByIdent` but evaluating a lazy value
first (with the supplied namespace, which may be nil); a present value of the
wrong kind fails the type assertion, i.e. panics. -/
def GetEvalKeyByIdentAny (mapping : GoMap) (key : String) (required : Bool)
    (ns : Option Namespace) : Res (Option Value) := do
  match ← GetKeyByIdentAny mapping key required with
  | none => pure none
  | some v =>
    match v with
    | .LazyResult c => do pure (some (← applyLazy c ns))
    | _ => pure (some v)

def GetEvalKeyByIdentString (mapping : GoMap) (key : String) (required : Bool)
    (ns : Option Namespace) : Res (Option String) := do
  match ← GetEvalKeyByIdentAny mapping key required ns with
  | none => pure none
  | some (.StringResult s) => pure (some s)
  | some _ => .panicked "type assertion failed"

def GetEvalKeyByIdentMap (mapping : GoMap) (key : String) (required : Bool)
    (ns : Option Namespace) : Res (Option GoMap) := do
  match ← GetEvalKeyByIdentAny mapping key required ns with
  | none => pure none
  | some (.MapResult m) => pure (some m)
  | some _ => .panicked "type assertion failed"

def GetEvalKeyByIdentIdent (mapping : GoMap) (key : String) (required : Bool)
    (ns : Option Namespace) : Res (Option String) := do
  match ← GetEvalKeyByIdentAny mapping key required ns with
  | none => pure none
  | some (.IdentResult s) => pure (some s)
  | some _ => .panicked "type assertion failed"

/-! ## The lexer (`lexer.go`, `scanner.go`)

The scanner walks the source bytes (byte-characters, per the module
docstring).  `Cursor()` and `Peek(n)` index the underlying slice directly and
panic when out of range; `Peek` is modelled with that panic, while the
`Cursor()` calls below occur only at call sites the surrounding code guards
with `IsDone()` (the guarded accesses use `getD`, whose default is
unreachable).

The lexer source predates the `Kind` field of `LangError` (it constructs
two-field `LangError` values); its errors are syntax errors per the spec's
taxonomy, so the embedding uses `ErrorSyntax` for them. -/

structure Scanner where
  Data : List Char
  Current : Nat
deriving Repr

def Scanner.IsDone (s : Scanner) : Bool := s.Current ≥ s.Data.length

def Scanner.Advance (s : Scanner) (n : Nat) : Scanner := { s with Current := s.Current + n }

/-- `Peek(n)`: the slice `Data[Current+1 : Current+1+n]` (panics when the
upper bound exceeds the data length, as Go slicing does). -/
def Scanner.PeekN (s : Scanner) (n : Nat) : Res (List Char) :=
  if s.Current + 1 + n ≤ s.Data.length then
    .ok ((s.Data.drop (s.Current + 1)).take n)
  else .panicked "slice bounds out of range"

/-- `IsASCIILetter` from `lexer.go`. -/
def IsASCIILetter (ch : Char) : Bool :=
  (97 ≤ ch.toNat ∧ ch.toNat ≤ 122) ∨ (65 ≤ ch.toNat ∧ ch.toNat ≤ 90)

/-- `IsASCIIDigit` from `lexer.go`. -/
def IsASCIIDigit (ch : Char) : Bool := 48 ≤ ch.toNat ∧ ch.toNat ≤ 57

/-- `IsIdentifier` from `lexer.go`. -/
def IsIdentifier (ch : Char) : Bool :=
  IsASCIILetter ch || IsASCIIDigit ch || ch = '_' || ch = '-'

/-- `IsStartOfIdentifier` from `lexer.go`. -/
def IsStartOfIdentifier (ch : Char) : Bool :=
  IsASCIILetter ch && !IsASCIIDigit ch && ch ≠ '-'

/-- The collection loops of `LexNumeric`/`LexIdentifier` and the line-comment
skip: advance while the cursor satisfies `p`, returning the collected
characters.  The fuel bounds the iteration count; callers pass the data
length, which always suffices since every step advances the cursor. -/
def lexCollect (fuel : Nat) (sc : Scanner) (p : Char → Bool) : List Char × Scanner :=
  match fuel with
  | 0 => ([], sc)
  | fuel + 1 =>
    if h : sc.Current < sc.Data.length then
      let c := sc.Data.get ⟨sc.Current, h⟩
      if p c then
        let r := lexCollect fuel (sc.Advance 1) p
        (c :: r.1, r.2)
      else ([], sc)
    else ([], sc)

/-- `LexNumeric` from `lexer.go` (called only with the cursor on a digit). -/
def LexNumeric (lx : Scanner) : Token × Scanner :=
  let start := lx.Current
  let first := lx.Data.getD lx.Current (Char.ofNat 0)
  let r := lexCollect lx.Data.length (lx.Advance 1) (fun c => IsASCIIDigit c || c = '.')
  let digits : List Char := first :: r.1
  let pos : Position := ⟨start, r.2.Current⟩
  if digits.contains '.' then
    (⟨.TokenFloat, ⟨digits⟩, pos⟩, r.2)
  else
    (⟨.TokenInteger, ⟨digits⟩, pos⟩, r.2)

/-- `LexIdentifier` from `lexer.go` (called only with the cursor on an
identifier start). -/
def LexIdentifier (lx : Scanner) : Token × Scanner :=
  let start := lx.Current
  let first := lx.Data.getD lx.Current (Char.ofNat 0)
  let r := lexCollect lx.Data.length (lx.Advance 1) IsIdentifier
  let ident : List Char := first :: r.1
  let pos : Position := ⟨start, r.2.Current⟩
  if (⟨ident⟩ : String) = KeywordTrue ∨ (⟨ident⟩ : String) = KeywordFalse then
    (⟨.TokenKeyword, ⟨ident⟩, pos⟩, r.2)
  else
    (⟨.TokenIdentifier, ⟨ident⟩, pos⟩, r.2)

/-- `escapeMap` from `lexer.go`. -/
def escapeMap (c : Char) : Option Char :=
  if c = '\\' then some '\\'
  else if c = '\'' then some '\''
  else if c = '"' then some '"'
  else if c = 'n' then some (Char.ofNat 10)
  else if c = 'r' then some (Char.ofNat 13)
  else if c = 't' then some (Char.ofNat 9)
  else none

def hexDigitVal (c : Char) : Option Nat :=
  if 48 ≤ c.toNat ∧ c.toNat ≤ 57 then some (c.toNat - 48)
  else if 97 ≤ c.toNat ∧ c.toNat ≤ 102 then some (c.toNat - 87)
  else if 65 ≤ c.toNat ∧ c.toNat ≤ 70 then some (c.toNat - 55)
  else none

/-- `strconv.ParseInt(s, 16, 8)` on a two-character window: both characters
must be hex digits and — because the bit size is 8, i.e. `int8` — the value
must not exceed 127. -/
def parseHex2 (l : List Char) : Option Nat :=
  match l with
  | [a, b] => do
    let x ← hexDigitVal a
    let y ← hexDigitVal b
    let v := x * 16 + y
    if v ≤ 127 then some v else none
  | _ => none

/-- `strconv.ParseInt(s, 8, 8)` on a three-character window (octal digits,
value at most 127 for the same `int8` reason). -/
def parseOct3 (l : List Char) : Option Nat :=
  match l with
  | [a, b, c] =>
    if [a, b, c].all (fun d => 48 ≤ d.toNat ∧ d.toNat ≤ 55) then
      let v := (a.toNat - 48) * 64 + (b.toNat - 48) * 8 + (c.toNat - 48)
      if v ≤ 127 then some v else none
    else none
  | _ => none

/-- The body loop of `LexString` from `lexer.go`.  `strSeq` accumulates the
decoded bytes; `closed` records whether the delimiter was seen. -/
def lexStringLoop (fuel : Nat) (lx : Scanner) (delimiter : Char)
    (strSeq : List Char) : Res (List Char × Scanner × Bool) :=
  match fuel with
  | 0 => .err (.str "lexer fuel exhausted")
  | fuel + 1 =>
    if h : lx.Current < lx.Data.length then
      let cur := lx.Data.get ⟨lx.Current, h⟩
      if cur = '\\' then
        let escapeStart := lx.Current
        let lx := lx.Advance 1
        -- the cursor access after the backslash is unguarded in the source
        if h2 : lx.Current < lx.Data.length then
          let nc := lx.Data.get ⟨lx.Current, h2⟩
          match escapeMap nc with
          | some escape => lexStringLoop fuel (lx.Advance 1) delimiter (strSeq ++ [escape])
          | none =>
            if nc = 'x' then do
              let hexSeq ← lx.PeekN 2
              match parseHex2 hexSeq with
              | some v =>
                lexStringLoop fuel (lx.Advance 3) delimiter (strSeq ++ [Char.ofNat v])
              | none =>
                .err (.lang ⟨.ErrorSyntax, ⟨escapeStart, lx.Current + 2⟩,
                  "invalid hex sequence"⟩)
            else if IsASCIIDigit nc then do
              let octTail ← lx.PeekN 2
              match parseOct3 (nc :: octTail) with
              | some v =>
                lexStringLoop fuel (lx.Advance 3) delimiter (strSeq ++ [Char.ofNat v])
              | none =>
                .err (.lang ⟨.ErrorSyntax, ⟨escapeStart, lx.Current + 3⟩,
                  "invalid octal sequence"⟩)
            else
              .err (.lang ⟨.ErrorSyntax, ⟨escapeStart, lx.Current⟩,
                "unknown escape sequence"⟩)
        else .panicked "index out of range"
      else if cur = delimiter then
        .ok (strSeq, lx.Advance 1, true)
      else
        lexStringLoop fuel (lx.Advance 1) delimiter (strSeq ++ [cur])
    else .ok (strSeq, lx, false)

/-- `LexString` from `lexer.go`. -/
def LexString (fuel : Nat) (lx : Scanner) (delimiter : Char) : Res (Token × Scanner) := do
  let start := lx.Current
  let (strSeq, lx2, closed) ← lexStringLoop fuel (lx.Advance 1) delimiter []
  if !closed then
    .err (.lang ⟨.ErrorSyntax, ⟨start, lx2.Current⟩, "string was never closed"⟩)
  else
    pure (⟨.TokenString, ⟨strSeq⟩, ⟨start, lx2.Current⟩⟩, lx2)

/-- `Lexer.Process` from `lexer.go`.

The Go loop body is a `switch` on the current byte followed by the
identifier/digit dispatch and a final `Advance(1)`; since no byte handled by a
`switch` case is an identifier start or a digit, the if/else chain below is
the same dispatch.  Single-character cases advance once (via the loop's final
`Advance(1)`), two-character cases twice.  Note the `/` case only consumes
`//` line comments — there is no `/*`-block-comment branch in the source. -/
def lexProcess (fuel : Nat) (lx : Scanner) (tokens : List Token) : Res (List Token) :=
  match fuel with
  | 0 => .err (.str "lexer fuel exhausted")
  | fuel + 1 =>
    if h : lx.Current < lx.Data.length then
      let ch := lx.Data.get ⟨lx.Current, h⟩
      let singlePos : Position := ⟨lx.Current, lx.Current + 1⟩
      let doublePos : Position := ⟨lx.Current, lx.Current + 2⟩
      let single (kind : TokenKind) : Res (List Token) :=
        lexProcess fuel (lx.Advance 1) (tokens ++ [⟨kind, ⟨[ch]⟩, singlePos⟩])
      if ch = '(' then single .TokenLParen
      else if ch = ')' then single .TokenRParen
      else if ch = '{' then single .TokenLBrace
      else if ch = '}' then single .TokenRBrace
      else if ch = '[' then single .TokenLBracket
      else if ch = ']' then single .TokenRBracket
      else if ch = ',' then single .TokenComma
      else if ch = ':' then single .TokenColon
      else if ch = '@' then single .TokenAt
      else if ch = '.' then single .TokenDot
      else if ch = '=' then do
        let nc ← lx.PeekN 1
        if nc = ['='] then
          lexProcess fuel (lx.Advance 2) (tokens ++ [⟨.TokenEquals, "==", doublePos⟩])
        else single .TokenAssign
      else if ch = '>' then do
        let nc ← lx.PeekN 1
        if nc = ['='] then
          lexProcess fuel (lx.Advance 2) (tokens ++ [⟨.TokenGtEq, ">=", doublePos⟩])
        else if nc = ['>'] then
          lexProcess fuel (lx.Advance 2) (tokens ++ [⟨.TokenBitwiseRight, ">>", doublePos⟩])
        else single .TokenGt
      else if ch = '<' then do
        let nc ← lx.PeekN 1
        if nc = ['='] then
          lexProcess fuel (lx.Advance 2) (tokens ++ [⟨.TokenLtEq, "<=", doublePos⟩])
        else if nc = ['<'] then
          lexProcess fuel (lx.Advance 2) (tokens ++ [⟨.TokenBitwiseLeft, "<<", doublePos⟩])
        else single .TokenLt
      else if ch = '+' then single .TokenPlus
      else if ch = '-' then single .TokenMinus
      else if ch = '/' then do
        let nc ← lx.PeekN 1
        if nc = ['/'] then
          let r := lexCollect lx.Data.length lx (fun c => c ≠ Char.ofNat 10)
          lexProcess fuel (r.2.Advance 1) tokens
        else single .TokenDiv
      else if ch = '*' then do
        let nc ← lx.PeekN 1
        if nc = ['*'] then
          lexProcess fuel (lx.Advance 2) (tokens ++ [⟨.TokenPow, "**", doublePos⟩])
        else single .TokenMul
      else if ch = '!' then do
        let nc ← lx.PeekN 1
        if nc = ['='] then
          lexProcess fuel (lx.Advance 2) (tokens ++ [⟨.TokenNotEq, "!=", doublePos⟩])
        else
          -- the source records the single-character `!` with `doublePos`
          lexProcess fuel (lx.Advance 1) (tokens ++ [⟨.TokenNot, "!", doublePos⟩])
      else if ch = '%' then single .TokenModulo
      else if ch = '|' then do
        let nc ← lx.PeekN 1
        if nc = ['|'] then
          lexProcess fuel (lx.Advance 2) (tokens ++ [⟨.TokenLogicalOr, "||", doublePos⟩])
        else
          -- the source records the single-character `|` with `doublePos`
          lexProcess fuel (lx.Advance 1) (tokens ++ [⟨.TokenBitwiseOr, "|", doublePos⟩])
      else if ch = '&' then do
        let nc ← lx.PeekN 1
        if nc = ['&'] then
          lexProcess fuel (lx.Advance 2) (tokens ++ [⟨.TokenLogicalAnd, "&&", doublePos⟩])
        else
          -- the source records the single-character `&` with `doublePos`
          lexProcess fuel (lx.Advance 1) (tokens ++ [⟨.TokenBitwiseAnd, "&", doublePos⟩])
      else if ch = '^' then single .TokenBitwiseXor
      else if ch = '~' then single .TokenBitwiseNot
      else if ch = '\'' ∨ ch = '"' then do
        let (strTok, lx2) ← LexString fuel lx ch
        lexProcess fuel lx2 (tokens ++ [strTok])
      else if IsStartOfIdentifier ch then
        let r := LexIdentifier lx
        lexProcess fuel r.2 (tokens ++ [r.1])
      else if IsASCIIDigit ch then
        let r := LexNumeric lx
        lexProcess fuel r.2 (tokens ++ [r.1])
      else
        lexProcess fuel (lx.Advance 1) tokens
    else .ok tokens

/-- Running the lexer over a source text: `Lexer{Contents: Scanner{…}}`
followed by `Process()`, with ample fuel (every loop iteration advances the
cursor by at least one). -/
def LexSource (source : String) : Res (List Token) :=
  lexProcess (source.length + 1) ⟨source.data, 0⟩ []

/-! ## The binary applier (`document.go`)

The applier owns a seekable handle (modelled by the byte list and an offset)
and the live namespace; Go mutates the namespace map in place, so the model
threads it through an explicit state that persists across error returns.

One sharing caveat: Go's inner struct namespace shares the `file` map object
with the outer namespace, so a position refresh performed by a struct child
is visible through the outer namespace *before* the struct's own final
refresh overwrites it.  The model stashes the outer namespace during the
children and refreshes the position at the struct's end exactly like the
source, which is observationally equivalent except for a struct-level `valid`
predicate reading `file.pos` — a situation no theorem below involves. -/

def ioSeekStart : Nat := 0
def ioSeekCurrent : Nat := 1
def ioSeekEnd : Nat := 2

/-- Go string → bytes (`[]byte(s)`), under the byte-character convention. -/
def strBytes (s : String) : List Nat := s.data.map Char.toNat

/-- bytes → Go string (`string(b)`), under the byte-character convention. -/
def bytesToStr (l : List Nat) : String := ⟨l.map Char.ofNat⟩

structure ApplyState where
  data : List Nat
  pos : Nat
  ns : Namespace

abbrev App (α : Type) := ApplyState → Res α × ApplyState

instance : Monad App where
  pure a := fun s => (.ok a, s)
  bind m f := fun s =>
    match m s with
    | (.ok a, s') => f a s'
    | (.err e, s') => (.err e, s')
    | (.panicked msg, s') => (.panicked msg, s')

def liftR {α : Type} (r : Res α) : App α := fun s => (r, s)

def getSt : App ApplyState := fun s => (.ok s, s)

def setNs (n : Namespace) : App Unit := fun s => (.ok (), { s with ns := n })

/-- `handle.Seek(offset, whence)`: computes the new absolute offset; a
negative target is an error. -/
def goSeek (offset : Int) (whence : Nat) : App Nat := fun s =>
  let target : Int :=
    if whence = ioSeekStart then offset
    else if whence = ioSeekCurrent then (s.pos : Int) + offset
    else (s.data.length : Int) + offset
  if target < 0 then (.err (.str "seek: negative position"), s)
  else (.ok target.toNat, { s with pos := target.toNat })

/-- `handle.Read(buf)` with `len(buf) = n`, result used without consulting the
count (as every call site does): at end of input it fails with `io.EOF`;
otherwise it fills the buffer with the available bytes, leaving the
zero-initialized remainder when fewer than `n` remain. -/
def goRead (n : Nat) : App (List Nat) := fun s =>
  if n = 0 then (.ok [], s)
  else if s.pos ≥ s.data.length then (.err .eof, s)
  else
    let k := min n (s.data.length - s.pos)
    let bytes := ((s.data.drop s.pos).take k) ++ List.replicate (n - k) 0
    (.ok bytes, { s with pos := s.pos + k })

/-- `binary.Read`'s underlying `io.ReadFull`: end of input is `io.EOF`, a
short read is `io.ErrUnexpectedEOF`. -/
def goReadFull (n : Nat) : App (List Nat) := fun s =>
  if n = 0 then (.ok [], s)
  else if s.pos ≥ s.data.length then (.err .eof, s)
  else if s.data.length - s.pos < n then (.err (.str "unexpected EOF"), { s with pos := s.data.length })
  else (.ok ((s.data.drop s.pos).take n), { s with pos := s.pos + n })

/-- Wrap an error result as `fmt.Errorf("msg: %w", err)` does. -/
def wrapRes {α : Type} (msg : String) (r : Res α) : Res α :=
  match r with
  | .err e => .err (.wrapped msg e)
  | other => other

/-- Extract the payload of a `required` lookup that returned `ok`: the
`none` case cannot occur (a missing required key is an error), so it is
marked as an unreachable panic. -/
def requireSome {α : Type} (o : Option α) : Res α :=
  match o with
  | some a => .ok a
  | none => .panicked "unreachable: required key lookup returned no value"

/-- Run a stateful action, reifying its outcome (Go's idiom of inspecting a
returned `err` while keeping all side effects). -/
def catchApp {α : Type} (m : App α) : App (Res α) := fun s =>
  match m s with
  | (r, s') => (.ok r, s')

structure SeekPos where
  Offset : Int
  Whence : Nat
deriving Repr

structure MagicTag where
  Contents : String
  Offset : Int
deriving Repr

structure EnumMember where
  Id : String
  Value : Value
  Name : String
  Doc : String

/-- `SwitchStmt` from `document.go`.  `Selected` is always a map when set
(either the matched case evaluated via `EvalResultIs[MapResult]` or the
`default` map), so it is carried as `Option GoMap`; the corresponding type
assertion in `ParseFormatType` therefore cannot fail. -/
structure SwitchStmt where
  On : Option LazyCode := none
  Cases : GoMap := []
  Default : Option GoMap := none
  Selected : Option GoMap := none

/-- `FormatType` from `document.go`.  The display-only output fields
`ProcFields` and `ProcArrItems` (filled by `processType` for the tree
printer) are omitted; no observable behaviour in this development reads
them. -/
structure FormatType where
  Type' : TypeName := ""
  Switch : SwitchStmt := {}
  Id : String := ""
  Name : String := ""
  Doc : String := ""
  At : Option SeekPos := none
  Valid : Option LazyCode := none
  If : Option LazyCode := none
  Endian : String := ""
  Match : List MagicTag := []
  Size : Int := 0
  Strip : Bool := false
  RawFields : List GoMap := []
  VarValue : Option Value := none
  ArrSize : Int := 0
  ArrSizeIsEos : Bool := false
  While : Option Value := none
  RawArrItem : GoMap := []
  EnumType : TypeName := ""
  EnumMembers : List EnumMember := []

/-- `getFormatEndian` from `document.go`: the field's own `endian` key, or —
when absent — the inherited one (required in `base`, which is nil at top
level); the result must be `little` or `big` after ASCII lowering. -/
def getFormatEndian (bin base : GoMap) (ns : Namespace) : Res String := do
  let endianRes ← GetEvalKeyByIdentString bin "endian" false (some ns)
  let endian ←
    if endianRes.getD "" = "" then do
      let baseEndianRes ← GetEvalKeyByIdentString base "endian" true (some ns)
      requireSome baseEndianRes
    else
      pure (endianRes.getD "")
  let endian := goToLower endian
  if endian ≠ "little" ∧ endian ≠ "big" then
    .err (.str "endian is not little or big")
  else
    pure endian

/-- The per-entry key evaluation of the `processSwitch` scan (the inline
`switch c := cond.(type)` of the source): a lazy key is applied to the
namespace, any other key stands for itself. -/
def evalCaseKey (cond : Value) (ns : Namespace) : Res Value :=
  match cond with
  | .LazyResult c => applyLazy c (some ns)
  | _ => pure cond

/-- The case-scanning loop of `processSwitch`, over the entries in the order
the Go `range` yields them (supplied by the caller's iteration oracle): each
key is evaluated if lazy (`evalCaseKey`, the inline type switch of the
source) and compared with the switch value by `==` (`doBinOpEquals`); the
first hit's case body is evaluated to a map. -/
def scanCases (entries : GoMap) (switchOn : Value) (ns : Namespace) :
    Res (Option GoMap) :=
  match entries with
  | [] => pure none
  | (cond, res) :: rest => do
    let evalCond ← evalCaseKey cond ns
    if (← doBinOpEquals switchOn evalCond) then do
      let m ← EvalResultIsMap res ns
      pure (some m)
    else
      scanCases rest switchOn ns

/-- `processSwitch` from `document.go`.  `iter` supplies the iteration order
of the `range casesRes` loop; it must be a permutation of the stored entries
(Go guarantees nothing more). -/
def processSwitch (iter : GoMap → GoMap) (format : GoMap) (ns : Namespace) :
    Res SwitchStmt := do
  let switchRes ← GetKeyByIdentLazy format "switch" false
  match switchRes with
  | none => pure {}
  | some sw => do
    let casesRes ← requireSome (← GetKeyByIdentMap format "cases" true)
    let defaultRes ← GetEvalKeyByIdentMap format "default" false (some ns)
    let switchOn ← applyLazy sw (some ns)
    let sel ← scanCases (iter casesRes) switchOn ns
    let stmt : SwitchStmt :=
      { On := some sw, Cases := casesRes, Default := defaultRes }
    match sel with
    | some selected => pure { stmt with Selected := some selected }
    | none =>
      match defaultRes with
      | some d => pure { stmt with Selected := some d }
      | none => .err (.str "switch condition did not match any case")

/-- The `match` list loop of the magic branch of `ParseFormatType`: every tag
is stored with `Offset: 0`. -/
def parseMagicTags (items : List Value) (idx : Nat) : Res (List MagicTag) :=
  match items with
  | [] => pure []
  | res :: rest => do
    let matchStr ← wrapRes (toString idx) (ResultIsString res)
    let tags ← parseMagicTags rest (idx + 1)
    pure (⟨matchStr, 0⟩ :: tags)

/-- The `fields` list loop of the struct branch of `ParseFormatType`. -/
def parseStructRawFields (fields : List Value) : Res (List GoMap) :=
  match fields with
  | [] => pure []
  | field :: rest => do
    let element ← ResultIsMap field
    let more ← parseStructRawFields rest
    pure (element :: more)

/-- The `members` list loop of the enum branch of `ParseFormatType`: each
member yields id/value/name/doc, and an integer value must lie within the
bounds of the underlying type. -/
def parseEnumMembers (enumType : TypeName) (members : List Value) :
    Res (List EnumMember) :=
  match members with
  | [] => pure []
  | field :: rest => do
    let element ← ResultIsMap field
    let ident ← requireSome (← GetEvalKeyByIdentIdent element "id" true none)
    let value ← requireSome (← GetEvalKeyByIdentAny element "value" true none)
    let name ← GetKeyByIdentString element "name" false
    let doc ← GetKeyByIdentString element "doc" false
    match value with
    | .IntegerResult i => do
      let inBounds ← IntegerInBounds enumType i
      if !inBounds then
        .err (.str "enum value not in bounds of assigned integer type")
      else do
        let more ← parseEnumMembers enumType rest
        pure (⟨ident, value, name.getD "", doc.getD ""⟩ :: more)
    | _ => do
      let more ← parseEnumMembers enumType rest
      pure (⟨ident, value, name.getD "", doc.getD ""⟩ :: more)

/-- Resolution of the `at` key of a field (`ParseFormatType`): a number is an
absolute offset, a two-element list is offset plus a whence string. -/
def parseAtValue (atRes : Option Value) (ns : Namespace) : Res (Option SeekPos) := do
  match atRes with
  | none => pure none
  | some ar => do
    let resolvedAt ←
      match ar with
      | .LazyResult c => applyLazy c (some ns)
      | _ => pure ar
    match resolvedAt with
    | .IntegerResult _ | .FloatResult _ => do
      let offsetInt ← NumberResultAsInt resolvedAt
      pure (some ⟨offsetInt, ioSeekStart⟩)
    | .ListResult atValList =>
      if atValList.length < 2 then
        .err (.str "value at must contain 2 items")
      else do
        let offsetInt ← wrapRes "at[0]" (NumberResultAsInt (atValList.getD 0 (.IdentResult "")))
        let whenceStr ← wrapRes "at[1]" (ResultIsString (atValList.getD 1 (.IdentResult "")))
        if whenceStr = "start" then pure (some ⟨offsetInt, ioSeekStart⟩)
        else if whenceStr = "end" then pure (some ⟨offsetInt, ioSeekEnd⟩)
        else if whenceStr = "current" then pure (some ⟨offsetInt, ioSeekCurrent⟩)
        else .err (.str "at[1]: whence is not a valid seek identifier")
    | _ => .err (.str "value at is not a list or number")

/-- The integer-like type names grouped by the `case` of `ParseFormatType`
that resolves an endianness. -/
def endianTypeNames : List TypeName :=
  [TypeUint16, TypeUint24, TypeUint32, TypeUint64,
   TypeInt16, TypeInt24, TypeInt32, TypeInt64, TypeFloat32, TypeFloat64]

/-- The `if` gate at the top of `ParseFormatType`: evaluate the lazy `if`
attribute when present; a false value is the `ErrSkipped` sentinel. -/
def checkIfGate (ifRes : Option LazyCode) (ns : Namespace) : Res Unit :=
  match ifRes with
  | some c => do
    let willParseRes ← applyLazy c (some ns)
    let willParse ← ResultIsBool willParseRes
    if !willParse then
      Res.err .skipped
    else pure ()
  | none => pure ()

/-- The `genTypeRes.(type)` switch of `ParseFormatType`: a lazy type
provider is applied under the namespace extended with the `eos` marker and,
when it yields a map, parsed recursively (`recur` is the caller's
`ParseFormatType` at smaller fuel, with a nil base); a `TypeResult` carries
the type name and its parameters; anything else leaves the zero values. -/
def resolveTypeProvider (recur : Value → Res FormatType) (genTypeRes : Value)
    (ns : Namespace) : Res (Option FormatType × (TypeName × List Value)) :=
  match genTypeRes with
  | .LazyResult c => do
    let typeNs ← goMapAssign ns (.IdentResult "eos") (.IdentResult "eos")
    let tempRes ← applyLazy c (some typeNs)
    match tempRes with
    | .MapResult _ => do
      let tempInherited ← recur tempRes
      pure ((some tempInherited, ("", ([] : List Value))))
    | .TypeResult n ps => pure ((none, (n, ps)))
    | _ => Res.err (.str "is not a valid type provider")
  | .TypeResult n ps => pure ((none, (n, ps)))
  | _ =>
    -- the Go type switch has no default: `typeRes` keeps its zero value
    pure ((none, ("", ([] : List Value))))

/-- The `id` evaluation of `ParseFormatType`: a present lazy id is evaluated
with a nil namespace and must be an identifier; an absent one is `""`. -/
def resolveFieldId (lazyIdRes : Option LazyCode) : Res String :=
  match lazyIdRes with
  | some c => do
    let genIdRes ← applyLazy c none
    ResultIsIdent genIdRes
  | none => pure ""

/-- The size/length-argument evaluation shared by the byte and array
branches of `ParseFormatType`: a lazy argument is applied under the
namespace, any other value stands for itself. -/
def evalPossiblyLazy (v : Value) (ns : Namespace) : Res Value :=
  match v with
  | .LazyResult c => applyLazy c (some ns)
  | other => pure other

/-- The byte branch's size conversion: `Int` via `Int64()`, `Float` via
truncation, anything else is an error. -/
def sizeResAsInt (sizeRes : Value) : Res Int :=
  match sizeRes with
  | .IntegerResult i => pure (int64wrap i)
  | .FloatResult q => pure (ratTrunc q)
  | _ => Res.err (.str "byte size must be numeric")

/-- The array branch's size resolution: the identifier `eos` marks an
end-of-stream array, a numeric size is wrapped to `int64` and must be
non-negative. -/
def applyArrSize (baseFormat : FormatType) (arrSizeRes : Value) :
    Res FormatType :=
  match arrSizeRes with
  | .IdentResult i =>
    if i = "eos" then pure { baseFormat with ArrSizeIsEos := true }
    else Res.err (.str "array size must be numeric")
  | _ => do
    let arrSize ← ResultIsInt arrSizeRes
    let n := int64wrap arrSize
    if n < 0 then Res.err (.str "array length must be non-negative")
    else pure { baseFormat with ArrSize := n }

/-- The array branch's `while` fetch (only for `eos` arrays). -/
def applyArrWhile (baseFormat : FormatType) (bin : GoMap) : Res FormatType :=
  if baseFormat.ArrSizeIsEos then do
    let whileRes ← GetKeyByIdentAny bin "while" false
    pure { baseFormat with While := whileRes }
  else pure baseFormat

/-- The enum branch's endianness resolution (skipped for one-byte underlying
types). -/
def applyEnumEndian (baseFormat : FormatType) (enumType : TypeName)
    (bin base : GoMap) (ns : Namespace) : Res FormatType :=
  if enumType ≠ TypeUint8 ∧ enumType ≠ TypeInt8 then do
    let endian ← getFormatEndian bin base ns
    pure { baseFormat with Endian := endian }
  else pure baseFormat

/-- The per-type tail of `ParseFormatType` (the `switch typeRes` of the
source, reached when no format was inherited): fill in the branch-specific
fields of the base format.  `tyParams` are the type's bracket parameters
(`typeRes.2`). -/
def finishFormatType (baseFormat : FormatType) (bin base : GoMap)
    (ns : Namespace) (tyParams : List Value) : Res FormatType :=
  if baseFormat.Type' = TypeMagic then do
    let matchRes ← requireSome (← GetKeyByIdentAny bin "match" true)
    match matchRes with
    | .StringResult s =>
      pure { baseFormat with Match := [⟨s, 0⟩] }
    | .ListResult l => do
      let tags ← parseMagicTags l 0
      pure { baseFormat with Match := tags }
    | _ =>
      -- no case of the Go `switch matchRes.Kind()` matches: control falls
      -- to the trailing `return baseFormat, nil` with no tags recorded
      pure baseFormat
  else if endianTypeNames.contains baseFormat.Type' then do
    let endian ← getFormatEndian bin base ns
    pure { baseFormat with Endian := endian }
  else if baseFormat.Type' = TypeVar then do
    let contents ← requireSome (← GetKeyByIdentAny bin "value" true)
    pure { baseFormat with VarValue := some contents }
  else if baseFormat.Type' = TypeByte then do
    let strip ← GetKeyByIdentBool bin "strip" false
    let baseFormat := if strip.getD false then { baseFormat with Strip := true } else baseFormat
    if tyParams.length ≤ 0 then
      pure { baseFormat with Size := 1 }
    else do
      let sizeRes ← evalPossiblyLazy (tyParams.getD 0 (.IdentResult "")) ns
      let size ← sizeResAsInt sizeRes
      if size < 0 then
        Res.err (.str "byte size must be non-negative")
      else
        pure { baseFormat with Size := size }
  else if baseFormat.Type' = TypeArray then do
    if tyParams.length ≤ 0 then
      Res.err (.str "array must specify length")
    else do
      let item ← requireSome (← GetKeyByIdentMap bin "item" true)
      let arrSizeRes ← evalPossiblyLazy (tyParams.getD 0 (.IdentResult "")) ns
      let baseFormat ← applyArrSize baseFormat arrSizeRes
      let baseFormat ← applyArrWhile baseFormat bin
      pure { baseFormat with RawArrItem := item }
  else if baseFormat.Type' = TypeStruct then do
    let fields ← requireSome (← GetKeyByIdentList bin "fields" true)
    let endian ← getFormatEndian bin base ns
    let rawFields ← parseStructRawFields fields
    pure { baseFormat with RawFields := rawFields, Endian := endian }
  else if baseFormat.Type' = TypeEnum then do
    if tyParams.length ≤ 0 then
      Res.err (.str "enum must specify underlying type")
    else do
      let enumType ← EvalResultIsType (tyParams.getD 0 (.IdentResult "")) ns
      if !(AvailableNumericTypes.contains enumType.1) then
        Res.err (.str "enum only supports integer types")
      else do
        let members ← requireSome (← GetKeyByIdentList bin "members" true)
        let baseFormat ← applyEnumEndian baseFormat enumType.1 bin base ns
        let mems ← parseEnumMembers enumType.1 members
        pure { baseFormat with EnumMembers := mems, EnumType := enumType.1 }
  else
    pure baseFormat

/-- `ParseFormatType` from `document.go`.  `iter` is the map iteration-order
oracle (used by the switch scan), `base` the enclosing struct's inherited
attribute map (nil, i.e. empty, at top level).  The fuel only bounds the
nesting depth of the `type`-inheritance recursion.  The inline statements of
the source (the `if` gate, the type-provider switch, the id evaluation, the
size evaluations) are the named helpers above. -/
def parseFormatType (fuel : Nat) (iter : GoMap → GoMap) (format : Value)
    (ns : Namespace) (base : GoMap) : Res FormatType :=
  match fuel with
  | 0 => .err (.str "out of fuel")
  | fuel + 1 => do
    let bin ← ResultIsMap format
    let ifRes ← GetKeyByIdentLazy bin "if" false
    _ ← checkIfGate ifRes ns
    let switcher ← processSwitch iter bin ns
    let bin :=
      match switcher.Selected with
      | some m => m
      | none => bin
    let genTypeRes ← requireSome (← GetKeyByIdentAny bin "type" true)
    let (inherited, typeRes) ←
      resolveTypeProvider (fun v2 => parseFormatType fuel iter v2 ns [])
        genTypeRes ns
    let lazyIdRes ← GetKeyByIdentLazy bin "id" false
    let idRes ← resolveFieldId lazyIdRes
    let nameRes ← GetKeyByIdentString bin "name" false
    let docRes ← GetKeyByIdentString bin "doc" false
    let atRes ← GetKeyByIdentAny bin "at" false
    let atVal ← parseAtValue atRes ns
    let validRes ← GetKeyByIdentLazy bin "valid" false
    let baseFormat : FormatType :=
      match inherited with
      | some inh => inh
      | none => { Type' := typeRes.1 }
    let baseFormat : FormatType :=
      { baseFormat with
        Id := idRes, Name := nameRes.getD "", Doc := docRes.getD "",
        At := atVal, If := ifRes, Valid := validRes, Switch := switcher }
    if inherited.isSome then
      return baseFormat
    else
      finishFormatType baseFormat bin base ns typeRes.2

/-! ## Reading values from the stream (`document.go`) -/

/-- The ten integer type names handled by `readInt` and grouped by the
integer `case` of `processType`. -/
def intTypeNames : List TypeName :=
  [TypeUint8, TypeUint16, TypeUint24, TypeUint32, TypeUint64,
   TypeInt8, TypeInt16, TypeInt24, TypeInt32, TypeInt64]

/-- `readInt` from `document.go`: read the exact width and assemble the bytes
with the declared endianness.

Note what the source does *not* do: except for the 64-bit case — where Go's
`int64(binary…Uint64(…))` conversion wraps the unsigned value two's-
complement — every assembled value is returned as the plain unsigned sum;
`int8`, `int16`, `int24` and `int32` are never sign-extended.  (`uint24`/
`int24` are assembled manually, `value := b0 | b1<<8 | b2<<16` for little
endian and mirrored for big endian.) -/
def readInt (format : FormatType) : App Value := do
  let numBytes ←
    if format.Type' = TypeUint8 ∨ format.Type' = TypeInt8 then pure 1
    else if format.Type' = TypeUint16 ∨ format.Type' = TypeInt16 then pure 2
    else if format.Type' = TypeUint24 ∨ format.Type' = TypeInt24 then pure 3
    else if format.Type' = TypeUint32 ∨ format.Type' = TypeInt32 then pure 4
    else if format.Type' = TypeUint64 ∨ format.Type' = TypeInt64 then pure 8
    else liftR (.err (.str "is not an integer type"))
  let b ← goRead numBytes
  let b0 : Int := b.getD 0 0
  let b1 : Int := b.getD 1 0
  let b2 : Int := b.getD 2 0
  let b3 : Int := b.getD 3 0
  let b4 : Int := b.getD 4 0
  let b5 : Int := b.getD 5 0
  let b6 : Int := b.getD 6 0
  let b7 : Int := b.getD 7 0
  if format.Type' = TypeUint8 ∨ format.Type' = TypeInt8 then
    -- byte endianness here is not relevant
    pure (.IntegerResult b0)
  else if format.Endian = "little" then
    if format.Type' = TypeUint16 ∨ format.Type' = TypeInt16 then
      pure (.IntegerResult (b0 + b1 * 2 ^ 8))
    else if format.Type' = TypeUint24 ∨ format.Type' = TypeInt24 then
      pure (.IntegerResult (b0 + b1 * 2 ^ 8 + b2 * 2 ^ 16))
    else if format.Type' = TypeUint32 ∨ format.Type' = TypeInt32 then
      pure (.IntegerResult (b0 + b1 * 2 ^ 8 + b2 * 2 ^ 16 + b3 * 2 ^ 24))
    else
      pure (.IntegerResult (int64wrap
        (b0 + b1 * 2 ^ 8 + b2 * 2 ^ 16 + b3 * 2 ^ 24 + b4 * 2 ^ 32 +
         b5 * 2 ^ 40 + b6 * 2 ^ 48 + b7 * 2 ^ 56)))
  else if format.Endian = "big" then
    if format.Type' = TypeUint16 ∨ format.Type' = TypeInt16 then
      pure (.IntegerResult (b1 + b0 * 2 ^ 8))
    else if format.Type' = TypeUint24 ∨ format.Type' = TypeInt24 then
      pure (.IntegerResult (b2 + b1 * 2 ^ 8 + b0 * 2 ^ 16))
    else if format.Type' = TypeUint32 ∨ format.Type' = TypeInt32 then
      pure (.IntegerResult (b3 + b2 * 2 ^ 8 + b1 * 2 ^ 16 + b0 * 2 ^ 24))
    else
      pure (.IntegerResult (int64wrap
        (b7 + b6 * 2 ^ 8 + b5 * 2 ^ 16 + b4 * 2 ^ 24 + b3 * 2 ^ 32 +
         b2 * 2 ^ 40 + b1 * 2 ^ 48 + b0 * 2 ^ 56)))
  else
    liftR (.err (.str "not an integer"))

/-- IEEE-754 bit pattern to an exact rational; infinities and NaNs (which no
claim involves) are modelled as 0. -/
def ieeeToRat (bits expBits manBits : Nat) : Rat :=
  let sign := bits / 2 ^ (expBits + manBits)
  let e := bits / 2 ^ manBits % 2 ^ expBits
  let m := bits % 2 ^ manBits
  let bias : Int := 2 ^ (expBits - 1) - 1
  if e = 2 ^ expBits - 1 then 0
  else
    let mag : Rat :=
      if e = 0 then ((m : Rat) / 2 ^ manBits) * (2 : Rat) ^ ((1 : Int) - bias)
      else (1 + (m : Rat) / 2 ^ manBits) * (2 : Rat) ^ ((e : Int) - bias)
    if sign % 2 = 1 then -mag else mag

/-- Assemble bytes into a bit pattern per endianness. -/
def bitsOfBytes (endianLittle : Bool) (b : List Nat) : Nat :=
  let ordered := if endianLittle then b.reverse else b
  ordered.foldl (fun acc x => acc * 256 + x) 0

/-- `readFloat` from `document.go`.  An endianness other than
`little`/`big` leaves the `binary.ByteOrder` nil and `binary.Read` panics;
`ParseFormatType` prevents that for parsed formats. -/
def readFloat (format : FormatType) : App Value := do
  if format.Endian ≠ "little" ∧ format.Endian ≠ "big" then
    liftR (.panicked "nil ByteOrder")
  else if format.Type' = TypeFloat32 then do
    let b ← goReadFull 4
    pure (.FloatResult (ieeeToRat (bitsOfBytes (format.Endian = "little") b) 8 23))
  else if format.Type' = TypeFloat64 then do
    let b ← goReadFull 8
    pure (.FloatResult (ieeeToRat (bitsOfBytes (format.Endian = "little") b) 11 52))
  else
    liftR (.err (.str "not a float"))

/-- The tag loop of `checkMagic`: seek to `base + tag.Offset`, read
`len(tag.Contents)` bytes, return the pattern on the first exact match; a
read failure (e.g. EOF) aborts the whole check. -/
def checkMagicLoop (tags : List MagicTag) (baseOffset : Nat) : App Value :=
  match tags with
  | [] => liftR (.err (.magic baseOffset))
  | tag :: rest => do
    let _ ← goSeek ((baseOffset : Int) + tag.Offset) ioSeekStart
    let contents := strBytes tag.Contents
    let matchBytes ← goRead contents.length
    if matchBytes = contents then
      pure (.StringResult tag.Contents)
    else
      checkMagicLoop rest baseOffset

/-- `checkMagic` from `document.go`. -/
def checkMagic (format : FormatType) : App Value := do
  let baseOffset ← goSeek 0 ioSeekCurrent
  checkMagicLoop format.Match baseOffset

/-- `parseEnumRange` from `document.go`. -/
def parseEnumRange (bound : TypeName) (res : GoMap) : Res (Int × Int) := do
  let from' ← requireSome (← GetKeyByIdentInt res "from" true)
  let to' ← requireSome (← GetKeyByIdentInt res "to" true)
  let inb ← IntegerInBounds bound from'
  if !inb then .err (.str "from value not in bounds of type")
  else do
    let inb2 ← IntegerInBounds bound to'
    if !inb2 then .err (.str "to value not in bounds of type")
    else pure (from', to')

/-- `valueInEnumRange` from `document.go`: enumerate `from ≤ current < to`
and compare each candidate with the value by `==`; stops at the first hit. -/
def valueInEnumRange (from' to' : Int) (value : Value) : Res Bool :=
  go ((to' - from').toNat) from'
where
  /-- The fuel equals the number of remaining candidates, so the zero-fuel
  arm is only reached with `current ≥ to'` and agrees with the loop exit. -/
  go (fuel : Nat) (current : Int) : Res Bool :=
    match fuel with
    | 0 => pure false
    | fuel + 1 =>
      if current < to' then do
        if (← doBinOpEquals value (.IntegerResult current)) then pure true
        else go fuel (current + 1)
      else pure false

/-- `errors.Is(err, io.EOF)`. -/
def isEOFErr : GoErr → Bool
  | .eof => true
  | .wrapped _ inner => isEOFErr inner
  | _ => false

/-- The `file.pos` refresh at the top of `processType`: requires the
namespace's `file` entry to be a map and stores the current offset under its
`pos` key. -/
def refreshFilePosStrict : App Unit := do
  let st ← getSt
  match ← liftR (goMapGet st.ns (.IdentResult "file")) with
  | some (.MapResult procFile) => do
    let pf ← liftR (goMapAssign procFile (.IdentResult "pos") (.IntegerResult st.pos))
    let ns2 ← liftR (goMapAssign st.ns (.IdentResult "file") (.MapResult pf))
    setNs ns2
  | _ => liftR (.err (.str "cannot assign to file"))

/-- The `file.pos` refresh at the bottom of `processType`.  The source
writes through the `procFile` pointer obtained at the top; if a processed
field has meanwhile rebound `file` to a non-map, that write lands in the
stale object and has no namespace effect, hence the silent fallback. -/
def refreshFilePosTail : App Unit := do
  let st ← getSt
  match ← liftR (goMapGet st.ns (.IdentResult "file")) with
  | some (.MapResult procFile) => do
    let pf ← liftR (goMapAssign procFile (.IdentResult "pos") (.IntegerResult st.pos))
    let ns2 ← liftR (goMapAssign st.ns (.IdentResult "file") (.MapResult pf))
    setNs ns2
  | _ => pure ()

/-- `bytes.TrimFunc(…, unicode.IsSpace(r) || r == 0)` restricted to the
single-byte characters the model uses (ASCII whitespace, NEL, NBSP, NUL). -/
def isTrimRune (c : Char) : Bool :=
  c.toNat = 0 ∨ c.toNat = 9 ∨ c.toNat = 10 ∨ c.toNat = 11 ∨ c.toNat = 12 ∨
  c.toNat = 13 ∨ c.toNat = 32 ∨ c.toNat = 133 ∨ c.toNat = 160

def goTrimFunc (s : List Char) : List Char :=
  ((s.dropWhile isTrimRune).reverse.dropWhile isTrimRune).reverse

/-- The member loop of the enum branch of `processType`.  Note the faithful
translation of `isEnumerated, err = valueInEnumRange(from, to, result)` in
the range case: it *overwrites* the flag, discarding any match found by an
earlier member; the integer case only ever raises the flag.  Every member's
identifier is bound into the namespace as the loop goes. -/
def processEnumMembers (members : List EnumMember) (enumType : TypeName)
    (result : Value) (isEnumerated : Bool) : App Bool :=
  match members with
  | [] => pure isEnumerated
  | member :: rest => do
    match member.Value with
    | .MapResult val => do
      let r ← liftR (wrapRes ("member " ++ member.Id) (parseEnumRange enumType val))
      let isEnumerated ←
        liftR (wrapRes ("member " ++ member.Id) (valueInEnumRange r.1 r.2 result))
      let st ← getSt
      let ns2 ← liftR (goMapAssign st.ns (.IdentResult member.Id) (.MapResult val))
      setNs ns2
      processEnumMembers rest enumType result isEnumerated
    | .IntegerResult _ => do
      let st ← getSt
      let ns2 ← liftR (goMapAssign st.ns (.IdentResult member.Id) member.Value)
      setNs ns2
      let eq ← liftR (doBinOpEquals result member.Value)
      processEnumMembers rest enumType result (if eq then true else isEnumerated)
    | _ => liftR (.err (.str ("enum member " ++ member.Id ++ " must be an integer")))

/-- The field loop of the struct branch of `processType` (the recursive
processing of a child is supplied as `procT`, the caller's `processType` at
smaller fuel): parse each raw field under the inner namespace (skipping those
whose `if` is false), process it, and bind its id both into the emerging map
and into the inner namespace. -/
def processStructFields (fuel : Nat) (iter : GoMap → GoMap)
    (procT : FormatType → App Value) (fields : List GoMap)
    (inherited : GoMap) (mapping : GoMap) : App GoMap :=
  match fields with
  | [] => pure mapping
  | field :: rest => do
    let st ← getSt
    match parseFormatType fuel iter (.MapResult field) st.ns inherited with
    | .err .skipped => processStructFields fuel iter procT rest inherited mapping
    | .err e => liftR (.err e)
    | .panicked m => liftR (.panicked m)
    | .ok fieldFormat => do
      let res ← procT fieldFormat
      let mapping ←
        if fieldFormat.Id ≠ "" then do
          let m2 ← liftR (goMapAssign mapping (.IdentResult fieldFormat.Id) res)
          let st2 ← getSt
          let ns2 ← liftR (goMapAssign st2.ns (.IdentResult fieldFormat.Id) res)
          setNs ns2
          pure m2
        else pure mapping
      processStructFields fuel iter procT rest inherited mapping

/-- The item loop of the array branch of `processType` (child processing is
supplied as `procT`).  In `eos` mode the optional `while` guard is evaluated
before each item and a read that ends the stream terminates the loop cleanly.
The item template is re-parsed each iteration under the (outer) namespace;
note there is no `ErrSkipped` handling here — a false `if` on the item
template propagates as an error. -/
def processArrayItems (fuel : Nat) (iter : GoMap → GoMap)
    (procT : FormatType → App Value) (format : FormatType)
    (elements : List Value) (idx : Int) : App (List Value) :=
  match fuel with
  | 0 => liftR (.err (.str "out of fuel"))
  | fuel + 1 => do
    if format.ArrSizeIsEos ∨ idx < format.ArrSize then do
      let cont ←
        if format.ArrSizeIsEos ∧ format.While.isSome then do
          let st ← getSt
          let evalWhile ←
            match format.While with
            | some (.LazyResult c) => liftR (applyLazy c (some st.ns))
            | some v => pure v
            | none => liftR (.panicked "unreachable")
          -- the source uses `ResultAsBoolean` in boolean position (a
          -- different-snapshot signature); the error case is propagated
          liftR (ResultAsBoolean evalWhile)
        else pure true
      if !cont then pure elements
      else do
        let st ← getSt
        match parseFormatType fuel iter (.MapResult format.RawArrItem) st.ns [] with
        | .err e => liftR (.err e)
        | .panicked m => liftR (.panicked m)
        | .ok arrItem => do
          let r ← catchApp (procT arrItem)
          match r with
          | .ok proc =>
            processArrayItems fuel iter procT format (elements ++ [proc]) (idx + 1)
          | .err e =>
            if format.ArrSizeIsEos ∧ isEOFErr e then pure elements
            else liftR (.err e)
          | .panicked m => liftR (.panicked m)
    else pure elements

/-- `processType` from `document.go`: seek to `at` if present, refresh
`file.pos`, read the value according to the type, then bind the field's id
into the namespace, evaluate the `valid` predicate (against the namespace
that already contains the id), and refresh `file.pos` again. -/
def processType (fuel : Nat) (iter : GoMap → GoMap) (format : FormatType) : App Value :=
  match fuel with
  | 0 => liftR (.err (.str "out of fuel"))
  | fuel + 1 => do
    match format.At with
    | some at' => do
      let _ ← goSeek at'.Offset at'.Whence
      pure ()
    | none => pure ()
    refreshFilePosStrict
    let value ←
      if format.Type' = TypeMagic then
        checkMagic format
      else if intTypeNames.contains format.Type' then
        readInt format
      else if format.Type' = TypeFloat32 ∨ format.Type' = TypeFloat64 then
        readFloat format
      else if format.Type' = TypeVar then
        match format.VarValue with
        | some (.LazyResult c) => do
          let st ← getSt
          liftR (applyLazy c (some st.ns))
        | some v => pure v
        | none => liftR (.panicked "unreachable: parsed var formats carry a value")
      else if format.Type' = TypeByte then
        if format.Size < 0 then liftR (.panicked "makeslice: len out of range")
        else do
          let byteSlice ← goRead format.Size.toNat
          if format.Strip then
            pure (.StringResult ⟨goTrimFunc (bytesToStr byteSlice).data⟩)
          else
            pure (.StringResult (bytesToStr byteSlice))
      else if format.Type' = TypeEnum then do
        let result ← processType fuel iter { Type' := format.EnumType, Endian := format.Endian }
        let isEnumerated ← processEnumMembers format.EnumMembers format.EnumType result false
        if !isEnumerated then
          liftR (.err (.str (format.Id ++ ": value not part of enumeration")))
        else
          pure result
      else if format.Type' = TypeStruct then do
        let st ← getSt
        let savedNs := st.ns
        -- the inner namespace is a copy seeded from the outer one
        -- (`maps.Copy(currentNs, ns)`); the children below run on it and it
        -- is dropped afterwards
        let inherited : GoMap := [(.IdentResult "endian", .StringResult format.Endian)]
        let mapping ← processStructFields fuel iter (processType fuel iter)
          format.RawFields inherited []
        setNs savedNs
        pure (.MapResult mapping)
      else if format.Type' = TypeArray then do
        let elements ← processArrayItems fuel iter (processType fuel iter) format [] 0
        pure (.ListResult elements)
      else
        liftR (.err (.str (format.Type' ++ " is not currently supported")))
    _ ←
      if format.Id ≠ "" then do
        let st ← getSt
        let ns2 ← liftR (goMapAssign st.ns (.IdentResult format.Id) value)
        setNs ns2
      else pure ()
    _ ←
      match format.Valid with
      | some c => do
        let st ← getSt
        let isValidRes ← liftR (applyLazy c (some st.ns))
        let isValid ← liftR (ResultIsBool isValidRes)
        if !isValid then
          liftR (.err (.str ("value for " ++ format.Id ++ " is invalid")))
        else pure ()
      | none => pure ()
    refreshFilePosTail
    pure value

/-- The `types` loop of `ApplyBDF`: bind each user type map under its id. -/
def bindTypes (typesSeq : List Value) (idx : Nat) (ns : Namespace) : Res Namespace :=
  match typesSeq with
  | [] => pure ns
  | res :: rest => do
    let typeRes ← wrapRes ("types[" ++ toString idx ++ "]") (ResultIsMap res)
    let ident ← wrapRes ("types[" ++ toString idx ++ "]")
      (do requireSome (← GetEvalKeyByIdentIdent typeRes "id" true none))
    let ns2 ← goMapAssign ns (.IdentResult ident) (.MapResult typeRes)
    bindTypes rest (idx + 1) ns2

structure MetaPair where
  Field : FormatType
  Value : Value

/-- The `binary` loop of `ApplyBDF`: parse each top-level field (continuing
past those whose `if` is false, whose parse returns the `ErrSkipped`
sentinel), process it, record `(FormatType, Value)` when the field carries a
name or id, surface an `ErrMagic` unwrapped and wrap any other processing
error with the field's index. -/
def applyFields (fuel : Nat) (iter : GoMap → GoMap) (binarySeq : List Value)
    (idx : Nat) (contents : List MetaPair) : App (List MetaPair) :=
  match binarySeq with
  | [] => pure contents
  | res :: rest => do
    let st ← getSt
    match parseFormatType fuel iter res st.ns [] with
    | .err .skipped => applyFields fuel iter rest (idx + 1) contents
    | .err e => liftR (.err (.wrapped ("binary[" ++ toString idx ++ "]") e))
    | .panicked m => liftR (.panicked m)
    | .ok formatType => do
      let r ← catchApp (processType fuel iter formatType)
      match r with
      | .ok value =>
        let contents2 :=
          if formatType.Name ≠ "" ∨ formatType.Id ≠ "" then
            contents ++ [⟨formatType, value⟩]
          else contents
        applyFields fuel iter rest (idx + 1) contents2
      | .err e =>
        match e with
        | .magic off => liftR (.err (.magic off))
        | _ => liftR (.err (.wrapped ("binary[" ++ toString idx ++ "]") e))
      | .panicked m => liftR (.panicked m)

/-- `ApplyBDF` from `document.go`, over an in-memory byte stream: build the
initial namespace (`file.pos = 0` plus the `types` bindings) and process the
`binary` sequence.  `iter` is the map iteration-order oracle and `fuel`
bounds recursion depth and loop counts (ample fuel leaves the behaviour of
terminating runs unchanged). -/
def ApplyBDF (fuel : Nat) (iter : GoMap → GoMap) (document : Value)
    (data : List Nat) : Res (List MetaPair) := do
  let root ← wrapRes "root" (ResultIsMap document)
  let typesSeq ← wrapRes "types" (GetKeyByIdentList root "types" false)
  let ns0 : Namespace :=
    [(.IdentResult "file", .MapResult [(.IdentResult "pos", .IntegerResult 0)])]
  let ns ← bindTypes (typesSeq.getD []) 0 ns0
  let binarySeq ← requireSome (← wrapRes "binary" (GetKeyByIdentList root "binary" true))
  (applyFields fuel iter binarySeq 0 [] { data := data, pos := 0, ns := ns }).1

/-! ## Concrete instances used by the claim theorems -/

/-- A valid Go map iteration order: the backing order itself. -/
def iterFwd : GoMap → GoMap := fun m => m

/-- A valid Go map iteration order: the reversed backing order (any
permutation of the entries is a possible `range` order). -/
def iterRev : GoMap → GoMap := fun m => m.reverse

/-- The initial applier namespace: `file.pos = 0`. -/
def nsFile : Namespace :=
  [(.IdentResult "file", .MapResult [(.IdentResult "pos", .IntegerResult 0)])]

def keywordLit (s : String) : Node := .LiteralNode ⟨.TokenKeyword, s, ⟨0, 0⟩⟩
def identLit (s : String) : Node := .LiteralNode ⟨.TokenIdentifier, s, ⟨0, 0⟩⟩
def intLit (s : String) : Node := .LiteralNode ⟨.TokenInteger, s, ⟨0, 0⟩⟩
def strLit (s : String) : Node := .LiteralNode ⟨.TokenString, s, ⟨0, 0⟩⟩

/-- A lazy whose application yields `false` (captures the keyword node). -/
def lazyFalseCode : LazyCode := .ofNode (keywordLit "false")

/-- The `Selected` component of a switch-processing outcome. -/
def selectedOf (r : Res SwitchStmt) : Option GoMap :=
  match r with
  | .ok s => s.Selected
  | _ => none

/-- C1 instance: two case bodies … -/
def c1CaseA : GoMap := [(.IdentResult "picked", .StringResult "A")]
def c1CaseB : GoMap := [(.IdentResult "picked", .StringResult "B")]

/-- … keyed by `Int 1` and `Float 1.0`, both of which `==`-match the switch
value `1` (numeric cross-kind equality), in source order `1` then `1.0`. -/
def c1Cases : GoMap := [(.IntegerResult 1, .MapResult c1CaseA), (.FloatResult 1, .MapResult c1CaseB)]

/-- C1 instance: a field map with `switch: 1` over those cases. -/
def c1Format : GoMap :=
  [(.IdentResult "switch", .LazyResult (.ofNode (intLit "1"))),
   (.IdentResult "cases", .MapResult c1Cases)]

/-- C2 instance: an `int24` little-endian field. -/
def c2Fmt : FormatType := { Type' := TypeInt24, Endian := "little" }

/-- C2 instance: the three bytes `00 00 80` — most significant byte `0x80`,
so the claimed two's-complement value is `-8388608`. -/
def c2St : ApplyState := { data := [0x00, 0x00, 0x80], pos := 0, ns := nsFile }

/-- C4 instance: the expression `5 % 0`. -/
def c4RemNode : Node := .BinOpNode (intLit "5") ⟨.TokenRemainder, "%", ⟨0, 0⟩⟩ (intLit "0")

/-- C4 instance: the expression `5 / 0`. -/
def c4DivNode : Node := .BinOpNode (intLit "5") ⟨.TokenDiv, "/", ⟨0, 0⟩⟩ (intLit "0")

/-- C5 instance: `enum[uint8]` with members `HI = 255` followed by
`LOW = {from: 0, to: 16}`. -/
def c5Fmt : FormatType :=
  { Type' := TypeEnum, Id := "kind", EnumType := TypeUint8,
    EnumMembers :=
      [⟨"HI", .IntegerResult 255, "", ""⟩,
       ⟨"LOW", .MapResult [(.IdentResult "from", .IntegerResult 0),
                           (.IdentResult "to", .IntegerResult 16)], "", ""⟩] }

/-- C5 instance: the same enum with the members in the spec's S5 order
(`LOW` first, `HI` second). -/
def c5FmtRev : FormatType := { c5Fmt with EnumMembers := c5Fmt.EnumMembers.reverse }

/-- C5 instance: the input byte `0xFF`, so the read value `255` equals the
`HI` member. -/
def c5St : ApplyState := { data := [0xFF], pos := 0, ns := nsFile }

/-- C6 instance: a `var` field with id `x`, value `1` and a constantly
false `valid` predicate. -/
def c6Fmt : FormatType :=
  { Type' := TypeVar, Id := "x", VarValue := some (.IntegerResult 1),
    Valid := some lazyFalseCode }

def c6St : ApplyState := { data := [], pos := 0, ns := nsFile }

/-- C7 instance: a source text whose bytes 0–4 are the block comment
`/*x*/`, followed by the integer literal `1`. -/
def c7Source : String := "/*x*/1"

/-- C8 instance: a top-level `array[1]` field whose item template carries
`if: false` (as a lazy over the keyword node). -/
def c8ArrayField : Value := .MapResult
  [(.IdentResult "type", .TypeResult TypeArray [.IntegerResult 1]),
   (.IdentResult "item", .MapResult
     [(.IdentResult "type", .TypeResult TypeUint8 []),
      (.IdentResult "if", .LazyResult lazyFalseCode)])]

def c8Doc : Value := .MapResult [(.IdentResult "binary", .ListResult [c8ArrayField])]

/-- C8 instance: a plain field map carrying `if: false` (for the witness of
the amended skip behaviour). -/
def c8SkipMap : GoMap :=
  [(.IdentResult "type", .TypeResult TypeUint8 []),
   (.IdentResult "if", .LazyResult lazyFalseCode)]

/-- C9 instance: a struct `s` with children `a: uint8` and
`b: var = a` (the second child's value references the first child's id). -/
def c9Fmt : FormatType :=
  { Type' := TypeStruct, Id := "s", Endian := "little",
    RawFields :=
      [[(.IdentResult "type", .TypeResult TypeUint8 []),
        (.IdentResult "id", .LazyResult (.ofNode (identLit "a")))],
       [(.IdentResult "type", .TypeResult TypeVar []),
        (.IdentResult "value", .LazyResult (.ofNode (identLit "a"))),
        (.IdentResult "id", .LazyResult (.ofNode (identLit "b")))]] }

def c9St : ApplyState := { data := [7], pos := 0, ns := nsFile }

/-- C10 instance: a magic field whose `match` is the list `["XY", "AB"]`. -/
def c10Field : Value := .MapResult
  [(.IdentResult "type", .TypeResult TypeMagic []),
   (.IdentResult "match", .ListResult [.StringResult "XY", .StringResult "AB"])]

def setPos (p : Nat) : App Unit := fun s => (.ok (), { s with pos := p })

/-- The spec's magic step, stated as written (§4.4): compare each candidate
pattern starting exactly at the stream position where the field began
(`base`), returning the matched bytes on the first exact match in list order,
and a magic error carrying `base` when none matches.  This definition follows the
spec's words; `checkMagic` (translated from the source) is proved to coincide
with it whenever every parsed tag has offset 0. -/
def magicScanSpec (tags : List MagicTag) (base : Nat) : App Value :=
  match tags with
  | [] => liftR (.err (.magic base))
  | tag :: rest => do
    setPos base
    let contents := strBytes tag.Contents
    let matchBytes ← goRead contents.length
    if matchBytes = contents then
      pure (.StringResult tag.Contents)
    else
      magicScanSpec rest base

/-! ## Shared helper lemmas -/

theorem App.bind_apply {α β : Type} (m : App α) (f : α → App β) (s : ApplyState) :
    (m >>= f) s =
      match m s with
      | (.ok a, s') => f a s'
      | (.err e, s') => (.err e, s')
      | (.panicked msg, s') => (.panicked msg, s') := rfl

theorem App.pure_apply {α : Type} (a : α) (s : ApplyState) :
    (pure a : App α) s = (.ok a, s) := rfl

theorem liftR_apply {α : Type} (r : Res α) (s : ApplyState) : liftR r s = (r, s) := rfl

theorem getSt_apply (s : ApplyState) : getSt s = (.ok s, s) := rfl

theorem setNs_apply (n : Namespace) (s : ApplyState) :
    setNs n s = (.ok (), { s with ns := n }) := rfl

/-- Assigning under an identifier key never panics: it rewrites the backing
list with `goMapAssign.go`. -/
theorem goMapAssign_ident (m : GoMap) (k : String) (v : Value) :
    goMapAssign m (.IdentResult k) v = .ok (goMapAssign.go (.IdentResult k) v m) := rfl

/-- Looking an identifier key up never panics. -/
theorem goMapGet_ident (m : GoMap) (k : String) :
    goMapGet m (.IdentResult k) = .ok (goMapGet.go (.IdentResult k) m) := rfl

theorem goShallowEq_ident_ident (a b : String) :
    goShallowEq (.IdentResult a) (.IdentResult b) = .ok (a = b) := rfl

/-- After assigning an identifier key, looking the same key up yields the
assigned value. -/
theorem goMapGet_go_assign_self (m : GoMap) (k : String) (v : Value) :
    goMapGet.go (.IdentResult k) (goMapAssign.go (.IdentResult k) v m) = some v := by
  induction m with
  | nil => simp [goMapAssign.go, goMapGet.go, goShallowEq]
  | cons hd tl ih =>
    obtain ⟨k2, v2⟩ := hd
    simp only [goMapAssign.go]
    cases hsk : goShallowEq (.IdentResult k) k2 with
    | ok b =>
      cases b with
      | true => simp [hsk, goMapGet.go, goShallowEq]
      | false => simp [hsk, goMapGet.go, ih]
    | err e => simp [hsk, goMapGet.go, ih]
    | panicked msg => simp [hsk, goMapGet.go, ih]

/-- Assigning one identifier key leaves lookups of a different identifier
key unchanged. -/
theorem goMapGet_go_assign_ne (m : GoMap) (k k2 : String) (v : Value) (h : k ≠ k2) :
    goMapGet.go (.IdentResult k) (goMapAssign.go (.IdentResult k2) v m) =
      goMapGet.go (.IdentResult k) m := by
  induction m with
  | nil => simp [goMapAssign.go, goMapGet.go, goShallowEq, h]
  | cons hd tl ih =>
    obtain ⟨kk, vv⟩ := hd
    simp only [goMapAssign.go]
    cases hsk : goShallowEq (.IdentResult k2) kk with
    | ok b =>
      cases b with
      | true =>
        -- kk is the identifier k2, which differs from k
        cases kk with
        | IdentResult s =>
          rw [goShallowEq_ident_ident] at hsk
          injection hsk with hb
          have hs : k2 = s := of_decide_eq_true hb
          subst hs
          simp [goMapGet.go, goShallowEq, h]
        | IntegerResult i => simp [goShallowEq] at hsk
        | FloatResult q => simp [goShallowEq] at hsk
        | BooleanResult b2 => simp [goShallowEq] at hsk
        | StringResult s => simp [goShallowEq] at hsk
        | ListResult l => simp [goShallowEq] at hsk
        | MapResult mm => simp [goShallowEq] at hsk
        | LazyResult c => simp [goShallowEq] at hsk
        | TypeResult n ps => simp [goShallowEq] at hsk
      | false => simp [goMapGet.go, hsk, ih]
    | err e => simp [goMapGet.go, hsk, ih]
    | panicked msg => simp [goMapGet.go, hsk, ih]

/-! ## Claim theorems -/

/-- C2 (counter-evaluation at the failing input): reading an `int24`
little-endian field over the bytes `00 00 80` yields the *unsigned* assembly
`8388608 = 2^23`, not the two's-complement value `-8388608` the claim states
(no sign extension is performed by `readInt`). -/
theorem C2_readInt_int24_unsigned :
    (readInt c2Fmt c2St).1 = .ok (.IntegerResult 8388608) ∧
      (8388608 : Int) ≠ -8388608 := ⟨rfl, by decide⟩

/-- C4 (counter-evaluation at the failing input): evaluating the integer
expression `5 % 0` panics inside `big.Int.Rem` (the guarding zero test
compares a `*big.Int` pointer against a fresh allocation and never fires),
while `5 / 0` does return the claimed `LangError` of kind `DomainError`. -/
theorem C4_int_remainder_by_zero_panics :
    Evaluate c4RemNode none = .panicked "division by zero" ∧
    Evaluate c4DivNode none =
      .err (.lang ⟨.ErrorDomain, ⟨0, 0⟩, "division by zero"⟩) := ⟨rfl, rfl⟩

/-- C5 (counter-evaluation at the failing input): processing
`enum[uint8]` members `[HI = 255, LOW = {from: 0, to: 16}]` over the input
byte `0xFF` raises the "not part of enumeration" error even though the `HI`
member matches the read value 255 — the range member's check *overwrites* the
match flag.  With the members in the opposite (spec S5) order the same input
succeeds with 255. -/
theorem C5_enum_match_flag_overwritten :
    (processType 5 iterFwd c5Fmt c5St).1 =
        .err (.str "kind: value not part of enumeration") ∧
    (processType 5 iterFwd c5FmtRev c5St).1 = .ok (.IntegerResult 255) := ⟨rfl, rfl⟩

/-- C6 (counterexample): processing a `var` field with id `x`, value `1` and
a false `valid` predicate fails validation — yet `x` remains bound to `1` in
the namespace afterwards, contradicting the claim that a field failing
validation leaves its id invisible.  (The id is bound *before* validation;
the spec's own scenario S6 — a `valid` referencing the field's id — depends
on this order.) -/
theorem C6_counterexample_id_visible_after_failed_valid :
    (processType 2 iterFwd c6Fmt c6St).1 = .err (.str "value for x is invalid") ∧
    goMapGet (processType 2 iterFwd c6Fmt c6St).2.ns (.IdentResult "x") =
      .ok (some (.IntegerResult 1)) := ⟨rfl, rfl⟩

/-- C7 (counter-evaluation at the failing input): lexing `/*x*/1` does not
consume the block comment — its bytes are tokenized as `/`, `*`, the
identifier `x`, `*`, `/` followed by the integer `1`, although `docs/TODO.md`
documents block comments as implemented. -/
theorem C7_block_comment_not_consumed :
    LexSource c7Source = .ok
      [⟨.TokenDiv, "/", ⟨0, 1⟩⟩,
       ⟨.TokenMul, "*", ⟨1, 2⟩⟩,
       ⟨.TokenIdentifier, "x", ⟨2, 3⟩⟩,
       ⟨.TokenMul, "*", ⟨3, 4⟩⟩,
       ⟨.TokenDiv, "/", ⟨4, 5⟩⟩,
       ⟨.TokenInteger, "1", ⟨5, 6⟩⟩] := rfl

/-- C8 (counterexample): applying a document whose single `binary` field is
an `array[1]` with item template `{type: uint8, if: false}` makes `ApplyBDF`
return an error that wraps the `ErrSkipped` sentinel — the array item loop
has no skip handling, so the sentinel *is* surfaced as an error from the
applier, contradicting the claim's universal "never surfaced". -/
theorem C8_counterexample_array_item_skip_surfaces :
    ApplyBDF 10 iterFwd c8Doc [0x41] = .err (.wrapped "binary[0]" .skipped) := rfl

/-- Any run of the case scan that selects a case selected a *member* of the
scanned entry list whose (evaluated) key `==`-matches the switch value. -/
theorem scanCases_selects_member (order : GoMap) (switchOn : Value)
    (ns : Namespace) (m : GoMap)
    (hscan : scanCases order switchOn ns = .ok (some m)) :
    ∃ cond res, (cond, res) ∈ order ∧
      (∃ evalCond,
        evalCaseKey cond ns = Res.ok evalCond ∧
        doBinOpEquals switchOn evalCond = .ok true) ∧
      EvalResultIsMap res ns = .ok m := by
  induction order with
  | nil => simp [scanCases] at hscan
  | cons hd rest ih =>
    obtain ⟨cond, res⟩ := hd
    rw [scanCases] at hscan
    cases hcond : evalCaseKey cond ns with
    | ok ec =>
      rw [hcond] at hscan
      simp only [Res.bind_ok] at hscan
      cases heq : doBinOpEquals switchOn ec with
      | ok b =>
        rw [heq] at hscan
        simp only [Res.bind_ok] at hscan
        cases b with
        | true =>
          simp only [if_true] at hscan
          cases hev : EvalResultIsMap res ns with
          | ok mm =>
            rw [hev] at hscan
            simp only [Res.bind_ok] at hscan
            injection hscan with h1
            injection h1 with h2
            exact ⟨cond, res, List.mem_cons_self _ _, ⟨ec, hcond, heq⟩, h2 ▸ hev⟩
          | err e => rw [hev] at hscan; simp at hscan
          | panicked msg => rw [hev] at hscan; simp at hscan
        | false =>
          simp only [Bool.false_eq_true, if_false] at hscan
          obtain ⟨c2, r2, hmem, hk, hv⟩ := ih hscan
          exact ⟨c2, r2, List.mem_cons_of_mem _ hmem, hk, hv⟩
      | err e => rw [heq] at hscan; simp at hscan
      | panicked msg => rw [heq] at hscan; simp at hscan
    | err e => rw [hcond] at hscan; simp at hscan
    | panicked msg => rw [hcond] at hscan; simp at hscan

/-- C1 (counterexample): `MapResult` is a Go map and does not make insertion
order observable.  The cases map `{1: A, 1.0: B}` (source order `1` first)
matches the switch value `1` on *both* keys; the reversed entry order is an
equally valid Go iteration order (a permutation of the entries), and under it
`processSwitch` selects `B` instead of the source-order `A` — so the scan is
not determined by the order the cases appear in the source document. -/
theorem C1_counterexample_switch_order_not_source_order :
    List.Perm (iterRev c1Cases) c1Cases ∧
    selectedOf (processSwitch iterFwd c1Format nsFile) = some c1CaseA ∧
    selectedOf (processSwitch iterRev c1Format nsFile) = some c1CaseB ∧
    c1CaseA ≠ c1CaseB := by
  refine ⟨?_, rfl, rfl, ?_⟩
  · exact List.Perm.swap _ _ _
  · intro h
    simp [c1CaseA, c1CaseB] at h

/-- C1 (amended): `processSwitch` scans the `cases` map in whatever order the
Go `range` loop yields — an unspecified permutation of the stored entries,
not necessarily the source order.  Whenever the scan (under any valid
iteration order) selects a case, the selection is the evaluated body of some
stored entry whose evaluated key compares `==`-equal to the switch value;
the selection agrees with source order only when at most one case matches. -/
theorem C1_amended_switch_scan (entries order : GoMap) (switchOn : Value)
    (ns : Namespace) (m : GoMap)
    (hperm : List.Perm order entries)
    (hscan : scanCases order switchOn ns = .ok (some m)) :
    ∃ cond res, (cond, res) ∈ entries ∧
      (∃ evalCond,
        evalCaseKey cond ns = Res.ok evalCond ∧
        doBinOpEquals switchOn evalCond = .ok true) ∧
      EvalResultIsMap res ns = .ok m := by
  obtain ⟨cond, res, hmem, hk, hv⟩ := scanCases_selects_member order switchOn ns m hscan
  exact ⟨cond, res, hperm.subset hmem, hk, hv⟩

/-- Witness for C1's amended theorem at the concrete cases map: the identity
iteration order is a permutation, its scan selects `A`, and the theorem
produces the matching entry. -/
theorem C1_amended_switch_scan_witness :
    List.Perm c1Cases c1Cases ∧
    scanCases c1Cases (.IntegerResult 1) nsFile = .ok (some c1CaseA) ∧
    (∃ cond res, (cond, res) ∈ c1Cases ∧
      (∃ evalCond,
        evalCaseKey cond nsFile = Res.ok evalCond ∧
        doBinOpEquals (.IntegerResult 1) evalCond = .ok true) ∧
      EvalResultIsMap res nsFile = .ok c1CaseA) :=
  ⟨List.Perm.refl _, rfl,
   C1_amended_switch_scan c1Cases c1Cases (.IntegerResult 1) nsFile c1CaseA
     (List.Perm.refl _) rfl⟩

/-- C3: evaluating a `Call` whose callee names a built-in returns a `Lazy`
closure; applying that closure under a namespace evaluates the arguments in
that namespace and applies the corresponding built-in (the call dispatch is
modelled from the spec, §4.3/§4.3b; the builtin bodies are translated from
the sources); in particular `len` of a `String` yields its `Int` length
rather than an error. -/
theorem C3_call_evaluates_to_builtin_lazy
    (name : String) (h : name ∈ builtinNames)
    (p pos : Position) (args : List Node) (ns : Namespace) :
    Evaluate (.CallNode (.LiteralNode ⟨.TokenIdentifier, name, p⟩) args pos) (some ns) =
      .ok (.LazyResult (.callFn (.LiteralNode ⟨.TokenIdentifier, name, p⟩) args pos)) ∧
    applyLazy (.callFn (.LiteralNode ⟨.TokenIdentifier, name, p⟩) args pos) (some ns) =
      (do
        let argVals ← evalCallArgs args (some ns)
        applyBuiltin name pos args argVals) ∧
    (∀ (s : String) (q : Position),
      applyLazy (.callFn (.LiteralNode ⟨.TokenIdentifier, "len", q⟩)
          [.LiteralNode ⟨.TokenString, s, q⟩] pos) (some ns) =
        .ok (.IntegerResult s.length)) := by
  refine ⟨rfl, ?_, fun s q => rfl⟩
  have hnot : ¬ name ∈ AvailableTypeNames := by
    fin_cases h <;> decide
  simp [applyLazy, Evaluate, evaluateLiteralTok, hnot]

/-- Witness for C3 at `len` with no arguments. -/
theorem C3_call_evaluates_to_builtin_lazy_witness :
    "len" ∈ builtinNames ∧
    Evaluate (.CallNode (.LiteralNode ⟨.TokenIdentifier, "len", ⟨0, 0⟩⟩) [] ⟨0, 0⟩)
        (some nsFile) =
      .ok (.LazyResult (.callFn (.LiteralNode ⟨.TokenIdentifier, "len", ⟨0, 0⟩⟩) [] ⟨0, 0⟩)) ∧
    applyLazy (.callFn (.LiteralNode ⟨.TokenIdentifier, "len", ⟨0, 0⟩⟩)
        [.LiteralNode ⟨.TokenString, "abc", ⟨0, 0⟩⟩] ⟨0, 0⟩) (some nsFile) =
      .ok (.IntegerResult 3) := by
  refine ⟨by decide, ?_, ?_⟩
  · exact (C3_call_evaluates_to_builtin_lazy "len" (by decide) ⟨0, 0⟩ ⟨0, 0⟩ [] nsFile).1
  · exact (C3_call_evaluates_to_builtin_lazy "len" (by decide) ⟨0, 0⟩ ⟨0, 0⟩ [] nsFile).2.2 "abc" ⟨0, 0⟩

theorem Res.bind_eq_ok {α β : Type} {x : Res α} {f : α → Res β} {b : β} :
    (x >>= f) = .ok b ↔ ∃ a, x = .ok a ∧ f a = .ok b := by
  cases x <;> simp [Bind.bind]

/-- `refreshFilePosStrict` when `file` is bound to a map: it only rewrites
the `file` entry (with its `pos` key refreshed) and succeeds. -/
theorem refreshFilePosStrict_apply (s : ApplyState) (pf : GoMap)
    (hfile : goMapGet.go (.IdentResult "file") s.ns = some (.MapResult pf)) :
    refreshFilePosStrict s =
      (.ok (), { s with ns := goMapAssign.go (.IdentResult "file") (.MapResult (goMapAssign.go (.IdentResult "pos") (.IntegerResult s.pos) pf)) s.ns }) := by
  simp [refreshFilePosStrict, App.bind_apply, getSt_apply, liftR_apply,
    goMapGet_ident, hfile, goMapAssign_ident, setNs_apply]

/-- `refreshFilePosTail` when `file` is bound to a map: same effect as the
strict variant. -/
theorem refreshFilePosTail_apply (s : ApplyState) (pf : GoMap)
    (hfile : goMapGet.go (.IdentResult "file") s.ns = some (.MapResult pf)) :
    refreshFilePosTail s =
      (.ok (), { s with ns := goMapAssign.go (.IdentResult "file") (.MapResult (goMapAssign.go (.IdentResult "pos") (.IntegerResult s.pos) pf)) s.ns }) := by
  simp [refreshFilePosTail, App.bind_apply, getSt_apply, liftR_apply,
    goMapGet_ident, hfile, goMapAssign_ident, setNs_apply]

/-- C6 (amended): a field's id is bound into the enclosing namespace
immediately after its value is computed and *before* the `valid` predicate
is evaluated; when `valid` evaluates to false the field fails with
`value for <id> is invalid`, but the id remains bound — visible — in the
namespace carried out of the failed field.  Stated for a `var` field with a
plain value, over any fuel, iteration order, starting state whose namespace
binds `file` to a map, and any constantly-false `valid` closure. -/
theorem C6_amended_id_bound_before_validation
    (fuel : Nat) (iter : GoMap → GoMap) (fmt : FormatType) (st : ApplyState)
    (k : Int) (c : LazyCode) (pf : GoMap)
    (hty : fmt.Type' = TypeVar) (hat : fmt.At = none)
    (hvv : fmt.VarValue = some (.IntegerResult k))
    (hid : fmt.Id ≠ "")
    (hvalid : fmt.Valid = some c)
    (hfalse : ∀ n, applyLazy c (some n) = .ok (.BooleanResult false))
    (hfile : goMapGet.go (.IdentResult "file") st.ns = some (.MapResult pf)) :
    (processType (fuel + 1) iter fmt st).1 =
      .err (.str ("value for " ++ fmt.Id ++ " is invalid")) ∧
    goMapGet.go (.IdentResult fmt.Id) ((processType (fuel + 1) iter fmt st).2).ns =
      some (.IntegerResult k) := by
  have hrf := refreshFilePosStrict_apply st pf hfile
  constructor <;>
    simp [processType, hat, hty, hvv, hvalid, hid, App.bind_apply,
      App.pure_apply, liftR_apply, getSt_apply, setNs_apply, hrf,
      goMapAssign_ident, goMapGet_ident, hfalse, ResultIsBool, TypeVar,
      TypeMagic, TypeFloat32, TypeFloat64, TypeByte, TypeEnum, TypeStruct,
      TypeArray, intTypeNames, TypeUint8, TypeUint16, TypeUint24, TypeUint32,
      TypeUint64, TypeInt8, TypeInt16, TypeInt24, TypeInt32, TypeInt64,
      goMapGet_go_assign_self]

/-- Witness for C6's amended theorem at the concrete field
`{type: var, id: x, value: 1, valid: false}`. -/
theorem C6_amended_id_bound_before_validation_witness :
    c6Fmt.Type' = TypeVar ∧ c6Fmt.At = none ∧
    c6Fmt.VarValue = some (.IntegerResult 1) ∧ c6Fmt.Id ≠ "" ∧
    c6Fmt.Valid = some lazyFalseCode ∧
    (∀ n, applyLazy lazyFalseCode (some n) = .ok (.BooleanResult false)) ∧
    goMapGet.go (.IdentResult "file") c6St.ns =
      some (.MapResult [(.IdentResult "pos", .IntegerResult 0)]) ∧
    ((processType 1 iterFwd c6Fmt c6St).1 =
        .err (.str ("value for " ++ c6Fmt.Id ++ " is invalid")) ∧
      goMapGet.go (.IdentResult c6Fmt.Id) ((processType 1 iterFwd c6Fmt c6St).2).ns =
        some (.IntegerResult 1)) :=
  ⟨rfl, rfl, rfl, by decide, rfl, fun n => rfl, rfl,
   C6_amended_id_bound_before_validation 0 iterFwd c6Fmt c6St 1 lazyFalseCode
     [(.IdentResult "pos", .IntegerResult 0)] rfl rfl rfl (by decide) rfl
     (fun n => rfl) rfl⟩

/-- C8 (amended): a false `if` makes `ParseFormatType` return the
`ErrSkipped` sentinel before any other processing, and both the applier's
top-level `binary` loop and the struct field loop recognize the sentinel and
skip the field — same contents, same stream position, same namespace, next
index — rather than surfacing it; the array item loop, by contrast, has no
such handling (its skip surfaces as an error, see the counterexample). -/
theorem C8_amended_skip_sentinel
    (fuel : Nat) (iter : GoMap → GoMap) (bin : GoMap) (ns : Namespace)
    (base : GoMap) (c : LazyCode) (res : Value) (rest : List Value)
    (idx : Nat) (contents : List MetaPair) (st : ApplyState)
    (field : GoMap) (fields : List GoMap) (procT : FormatType → App Value)
    (inherited mapping : GoMap)
    (hif : GetKeyByIdentLazy bin "if" false = .ok (some c))
    (hfalse : applyLazy c (some ns) = .ok (.BooleanResult false))
    (hskip : parseFormatType fuel iter res st.ns [] = .err .skipped)
    (hskip2 : parseFormatType fuel iter (.MapResult field) st.ns inherited =
      .err .skipped) :
    parseFormatType (fuel + 1) iter (.MapResult bin) ns base = .err .skipped ∧
    applyFields fuel iter (res :: rest) idx contents st =
      applyFields fuel iter rest (idx + 1) contents st ∧
    processStructFields fuel iter procT (field :: fields) inherited mapping st =
      processStructFields fuel iter procT fields inherited mapping st := by
  refine ⟨?_, ?_, ?_⟩
  · simp only [parseFormatType, ResultIsMap, Res.bind_ok, hif, checkIfGate,
      hfalse, ResultIsBool, Bool.not_false, if_true, Res.bind_err]
  · simp [applyFields, App.bind_apply, getSt_apply, hskip]
  · simp [processStructFields, App.bind_apply, getSt_apply, hskip2]

/-- Witness for C8's amended theorem at the field `{type: uint8, if: false}`
over an empty applier run. -/
theorem C8_amended_skip_sentinel_witness :
    GetKeyByIdentLazy c8SkipMap "if" false = .ok (some lazyFalseCode) ∧
    applyLazy lazyFalseCode (some nsFile) = .ok (.BooleanResult false) ∧
    parseFormatType 3 iterFwd (.MapResult c8SkipMap)
      ({ data := [], pos := 0, ns := nsFile } : ApplyState).ns [] = .err .skipped ∧
    (parseFormatType 4 iterFwd (.MapResult c8SkipMap) nsFile [] = .err .skipped ∧
      applyFields 3 iterFwd [.MapResult c8SkipMap] 0 []
          { data := [], pos := 0, ns := nsFile } =
        applyFields 3 iterFwd [] 1 [] { data := [], pos := 0, ns := nsFile } ∧
      processStructFields 3 iterFwd (processType 3 iterFwd) [c8SkipMap] [] []
          { data := [], pos := 0, ns := nsFile } =
        processStructFields 3 iterFwd (processType 3 iterFwd) [] [] []
          { data := [], pos := 0, ns := nsFile }) :=
  ⟨rfl, rfl, rfl,
   C8_amended_skip_sentinel 3 iterFwd c8SkipMap nsFile [] lazyFalseCode
     (.MapResult c8SkipMap) [] 0 [] { data := [], pos := 0, ns := nsFile }
     c8SkipMap [] (processType 3 iterFwd) [] [] rfl rfl rfl rfl⟩

/-- C9: the inner scope of a struct field is a snapshot of the outer
namespace taken at struct entry (the copy handed to the field loop), and
whatever the child fields bind there is dropped when the struct completes:
on success the outer namespace is unchanged — up to the `file.pos`
bookkeeping — except for the struct's own id, now bound to the struct's
final `Map` value.  The final closed conjunct shows the inner bindings *are*
visible to later child fields: in `struct s { a: uint8; b: var = a }` the
second child reads the first's binding. -/
theorem C9_struct_scope_snapshot_no_leak
    (fuel : Nat) (iter : GoMap → GoMap) (fmt : FormatType) (st : ApplyState)
    (pf mapping : GoMap) (st2 : ApplyState)
    (hty : fmt.Type' = TypeStruct) (hat : fmt.At = none)
    (hidf : fmt.Id ≠ "file") (hvalid : fmt.Valid = none)
    (hfile : goMapGet.go (.IdentResult "file") st.ns = some (.MapResult pf))
    (hstruct : processStructFields fuel iter (processType fuel iter)
        fmt.RawFields [(.IdentResult "endian", .StringResult fmt.Endian)] []
        { st with ns := goMapAssign.go (.IdentResult "file") (.MapResult (goMapAssign.go (.IdentResult "pos") (.IntegerResult st.pos) pf)) st.ns } =
      (.ok mapping, st2)) :
    (processType (fuel + 1) iter fmt st).1 = .ok (.MapResult mapping) ∧
    (fmt.Id ≠ "" →
      goMapGet.go (.IdentResult fmt.Id) ((processType (fuel + 1) iter fmt st).2).ns =
        some (.MapResult mapping)) ∧
    (∀ k2 : String, k2 ≠ fmt.Id → k2 ≠ "file" →
      goMapGet.go (.IdentResult k2) ((processType (fuel + 1) iter fmt st).2).ns =
        goMapGet.go (.IdentResult k2) st.ns) ∧
    (processType 6 iterFwd c9Fmt c9St).1 =
      .ok (.MapResult [(.IdentResult "a", .IntegerResult 7),
                       (.IdentResult "b", .IntegerResult 7)]) := by
  have hrf := refreshFilePosStrict_apply st pf hfile
  by_cases hid : fmt.Id = ""
  · -- no id: nothing is bound; the namespace is restored then only
    -- `file.pos` is refreshed again
    have hfile2 : goMapGet.go (.IdentResult "file")
        (goMapAssign.go (.IdentResult "file") (.MapResult (goMapAssign.go (.IdentResult "pos") (.IntegerResult st.pos) pf)) st.ns) =
        some (.MapResult (goMapAssign.go (.IdentResult "pos") (.IntegerResult st.pos) pf)) :=
      goMapGet_go_assign_self _ _ _
    have htail := refreshFilePosTail_apply
      { st2 with ns := goMapAssign.go (.IdentResult "file") (.MapResult (goMapAssign.go (.IdentResult "pos") (.IntegerResult st.pos) pf)) st.ns }
      (goMapAssign.go (.IdentResult "pos") (.IntegerResult st.pos) pf) hfile2
    refine ⟨?_, fun h => absurd hid h, ?_, rfl⟩ <;>
      simp [processType, hat, hty, hvalid, hid, App.bind_apply,
        App.pure_apply, liftR_apply, getSt_apply, setNs_apply, hrf, htail,
        hstruct, goMapAssign_ident, goMapGet_ident, TypeVar, TypeMagic,
        TypeFloat32, TypeFloat64, TypeByte, TypeEnum, TypeStruct, TypeArray,
        intTypeNames, TypeUint8, TypeUint16, TypeUint24, TypeUint32,
        TypeUint64, TypeInt8, TypeInt16, TypeInt24, TypeInt32, TypeInt64] <;>
      intro k2 hk2id hk2file <;>
      rw [goMapGet_go_assign_ne _ _ _ _ hk2file,
        goMapGet_go_assign_ne _ _ _ _ hk2file]
  · -- an id: it is bound over the restored namespace before the tail refresh
    have hfile4 : goMapGet.go (.IdentResult "file")
        (goMapAssign.go (.IdentResult fmt.Id) (.MapResult mapping)
          (goMapAssign.go (.IdentResult "file") (.MapResult (goMapAssign.go (.IdentResult "pos") (.IntegerResult st.pos) pf)) st.ns)) =
        some (.MapResult (goMapAssign.go (.IdentResult "pos") (.IntegerResult st.pos) pf)) := by
      rw [goMapGet_go_assign_ne _ _ _ _ (Ne.symm hidf)]
      exact goMapGet_go_assign_self _ _ _
    have htail := refreshFilePosTail_apply
      { st2 with ns := goMapAssign.go (.IdentResult fmt.Id) (.MapResult mapping) (goMapAssign.go (.IdentResult "file") (.MapResult (goMapAssign.go (.IdentResult "pos") (.IntegerResult st.pos) pf)) st.ns) }
      (goMapAssign.go (.IdentResult "pos") (.IntegerResult st.pos) pf) hfile4
    refine ⟨?_, fun _ => ?_, ?_, rfl⟩ <;>
      simp [processType, hat, hty, hvalid, hid, App.bind_apply,
        App.pure_apply, liftR_apply, getSt_apply, setNs_apply, hrf, htail,
        hstruct, goMapAssign_ident, goMapGet_ident, TypeVar, TypeMagic,
        TypeFloat32, TypeFloat64, TypeByte, TypeEnum, TypeStruct, TypeArray,
        intTypeNames, TypeUint8, TypeUint16, TypeUint24, TypeUint32,
        TypeUint64, TypeInt8, TypeInt16, TypeInt24, TypeInt32, TypeInt64]
    · rw [goMapGet_go_assign_ne _ _ _ _ hidf]
      exact goMapGet_go_assign_self _ _ _
    · intro k2 hk2id hk2file
      rw [goMapGet_go_assign_ne _ _ _ _ hk2file,
        goMapGet_go_assign_ne _ _ _ _ hk2id,
        goMapGet_go_assign_ne _ _ _ _ hk2file]

/-- Witness for C9 at the struct `s { a: uint8; b: var = a }` over the
one-byte input `07`: the hypotheses hold with the child loop producing
`{a: 7, b: 7}`, the struct's value and binding are that map, and an
unrelated identifier resolves as before. -/
theorem C9_struct_scope_snapshot_no_leak_witness :
    c9Fmt.Type' = TypeStruct ∧ c9Fmt.At = none ∧ c9Fmt.Id ≠ "file" ∧
    c9Fmt.Valid = none ∧
    goMapGet.go (.IdentResult "file") c9St.ns =
      some (.MapResult [(.IdentResult "pos", .IntegerResult 0)]) ∧
    ((processType 6 iterFwd c9Fmt c9St).1 =
        .ok (.MapResult [(.IdentResult "a", .IntegerResult 7),
                         (.IdentResult "b", .IntegerResult 7)]) ∧
      (c9Fmt.Id ≠ "" →
        goMapGet.go (.IdentResult c9Fmt.Id) ((processType 6 iterFwd c9Fmt c9St).2).ns =
          some (.MapResult [(.IdentResult "a", .IntegerResult 7),
                            (.IdentResult "b", .IntegerResult 7)])) ∧
      (∀ k2 : String, k2 ≠ c9Fmt.Id → k2 ≠ "file" →
        goMapGet.go (.IdentResult k2) ((processType 6 iterFwd c9Fmt c9St).2).ns =
          goMapGet.go (.IdentResult k2) c9St.ns) ∧
      (processType 6 iterFwd c9Fmt c9St).1 =
        .ok (.MapResult [(.IdentResult "a", .IntegerResult 7),
                         (.IdentResult "b", .IntegerResult 7)])) :=
  ⟨rfl, rfl, by decide, rfl, rfl,
   C9_struct_scope_snapshot_no_leak 5 iterFwd c9Fmt c9St
     [(.IdentResult "pos", .IntegerResult 0)]
     [(.IdentResult "a", .IntegerResult 7), (.IdentResult "b", .IntegerResult 7)]
     ((processStructFields 5 iterFwd (processType 5 iterFwd) c9Fmt.RawFields
        [(.IdentResult "endian", .StringResult c9Fmt.Endian)] []
        { c9St with ns := goMapAssign.go (.IdentResult "file") (.MapResult (goMapAssign.go (.IdentResult "pos") (.IntegerResult c9St.pos) [(.IdentResult "pos", .IntegerResult 0)])) c9St.ns }).2)
     rfl rfl (by decide) rfl rfl rfl⟩

/-- Every tag produced by the `match` list loop carries offset 0. -/
theorem parseMagicTags_offsets (items : List Value) :
    ∀ (idx : Nat) (tags : List MagicTag),
      parseMagicTags items idx = .ok tags → ∀ t ∈ tags, t.Offset = 0 := by
  induction items with
  | nil =>
    intro idx tags h t ht
    simp only [parseMagicTags, Res.pure_eq, Res.ok.injEq] at h
    subst h
    simp at ht
  | cons res rest ih =>
    intro idx tags h t ht
    simp only [parseMagicTags, Res.bind_eq_ok, Res.pure_eq, Res.ok.injEq] at h
    obtain ⟨s, hs, tags2, htags2, h⟩ := h
    subst h
    rcases List.mem_cons.mp ht with ht | ht
    · subst ht; rfl
    · exact ih (idx + 1) tags2 htags2 t ht

/-- The type-provider switch yields either no inherited format or one
produced by the recursive parse (so any property of `recur` results holds
of it). -/
theorem resolveTypeProvider_inherited (recur : Value → Res FormatType)
    (good : ∀ v ti, recur v = .ok ti → ∀ t ∈ ti.Match, t.Offset = 0)
    (genTypeRes : Value) (ns : Namespace) (inherited : Option FormatType)
    (typeRes : TypeName × List Value)
    (h : resolveTypeProvider recur genTypeRes ns = .ok (inherited, typeRes)) :
    inherited = none ∨
      ∃ ti, inherited = some ti ∧ ∀ t ∈ ti.Match, t.Offset = 0 := by
  cases genTypeRes with
  | LazyResult c =>
    simp only [resolveTypeProvider, Res.bind_eq_ok] at h
    obtain ⟨typeNs, _, tempRes, _, h⟩ := h
    cases tempRes with
    | MapResult m =>
      simp only [Res.bind_eq_ok, Res.pure_eq, Res.ok.injEq,
        Prod.mk.injEq] at h
      obtain ⟨ti, hti, hinh2, _⟩ := h
      exact Or.inr ⟨ti, hinh2.symm, good _ ti hti⟩
    | TypeResult n ps =>
      simp only [Res.pure_eq, Res.ok.injEq, Prod.mk.injEq] at h
      exact Or.inl h.1.symm
    | IntegerResult i => exact Res.noConfusion h
    | FloatResult q => exact Res.noConfusion h
    | BooleanResult b => exact Res.noConfusion h
    | StringResult s => exact Res.noConfusion h
    | IdentResult s => exact Res.noConfusion h
    | ListResult l => exact Res.noConfusion h
    | LazyResult c2 => exact Res.noConfusion h
  | TypeResult n ps =>
    simp only [resolveTypeProvider, Res.pure_eq, Res.ok.injEq,
      Prod.mk.injEq] at h
    exact Or.inl h.1.symm
  | IntegerResult i =>
    simp only [resolveTypeProvider, Res.pure_eq, Res.ok.injEq,
      Prod.mk.injEq] at h
    exact Or.inl h.1.symm
  | FloatResult q =>
    simp only [resolveTypeProvider, Res.pure_eq, Res.ok.injEq,
      Prod.mk.injEq] at h
    exact Or.inl h.1.symm
  | BooleanResult b =>
    simp only [resolveTypeProvider, Res.pure_eq, Res.ok.injEq,
      Prod.mk.injEq] at h
    exact Or.inl h.1.symm
  | StringResult s =>
    simp only [resolveTypeProvider, Res.pure_eq, Res.ok.injEq,
      Prod.mk.injEq] at h
    exact Or.inl h.1.symm
  | IdentResult s =>
    simp only [resolveTypeProvider, Res.pure_eq, Res.ok.injEq,
      Prod.mk.injEq] at h
    exact Or.inl h.1.symm
  | MapResult m =>
    simp only [resolveTypeProvider, Res.pure_eq, Res.ok.injEq,
      Prod.mk.injEq] at h
    exact Or.inl h.1.symm
  | ListResult l =>
    simp only [resolveTypeProvider, Res.pure_eq, Res.ok.injEq,
      Prod.mk.injEq] at h
    exact Or.inl h.1.symm

/-- The array-size resolution never touches the `Match` tags. -/
theorem applyArrSize_match (bf bf2 : FormatType) (r : Value)
    (h : applyArrSize bf r = .ok bf2) : bf2.Match = bf.Match := by
  unfold applyArrSize at h
  split at h
  · split at h
    · simp only [Res.pure_eq, Res.ok.injEq] at h
      subst h; rfl
    · exact Res.noConfusion h
  · simp only [Res.bind_eq_ok] at h
    obtain ⟨n, hn, h⟩ := h
    split at h
    · exact Res.noConfusion h
    · simp only [Res.pure_eq, Res.ok.injEq] at h
      subst h; rfl

/-- The array `while` fetch never touches the `Match` tags. -/
theorem applyArrWhile_match (bf bf2 : FormatType) (bin : GoMap)
    (h : applyArrWhile bf bin = .ok bf2) : bf2.Match = bf.Match := by
  unfold applyArrWhile at h
  split at h
  · simp only [Res.bind_eq_ok, Res.pure_eq, Res.ok.injEq] at h
    obtain ⟨w, hw, h⟩ := h
    subst h; rfl
  · simp only [Res.pure_eq, Res.ok.injEq] at h
    subst h; rfl

/-- The enum endianness resolution never touches the `Match` tags. -/
theorem applyEnumEndian_match (bf bf2 : FormatType) (enumType : TypeName)
    (bin base : GoMap) (ns : Namespace)
    (h : applyEnumEndian bf enumType bin base ns = .ok bf2) :
    bf2.Match = bf.Match := by
  unfold applyEnumEndian at h
  split at h
  · simp only [Res.bind_eq_ok, Res.pure_eq, Res.ok.injEq] at h
    obtain ⟨e, he, h⟩ := h
    subst h; rfl
  · simp only [Res.pure_eq, Res.ok.injEq] at h
    subst h; rfl

/-- `finishFormatType` over a base format `bf` whose `Match` tags are
empty: whatever branch runs, the returned format's tags either stay empty or
are written with offset 0 by the magic branch. -/
theorem finishFormatType_offsets (bf : FormatType) (bin base : GoMap)
    (ns : Namespace) (tyParams : List Value) (fmt : FormatType)
    (hbfM : bf.Match = [])
    (h : finishFormatType bf bin base ns tyParams = .ok fmt) :
    ∀ t ∈ fmt.Match, t.Offset = 0 := by
  unfold finishFormatType at h
  by_cases hA1 : bf.Type' = TypeMagic
  · -- magic branch
    rw [if_pos hA1] at h
    simp only [Res.bind_eq_ok] at h
    obtain ⟨mOpt, hmo, matchRes, hmr, h⟩ := h
    cases matchRes with
    | StringResult s =>
      simp only [Res.pure_eq, Res.ok.injEq] at h
      subst h
      intro t ht
      have ht' : t ∈ [(⟨s, 0⟩ : MagicTag)] := ht
      rcases List.mem_singleton.mp ht' with ht2
      subst ht2; rfl
    | ListResult l =>
      simp only [Res.bind_eq_ok, Res.pure_eq, Res.ok.injEq] at h
      obtain ⟨tags, htags, h⟩ := h
      subst h
      intro t ht
      exact parseMagicTags_offsets l 0 tags htags t ht
    | IntegerResult i =>
      simp only [Res.pure_eq, Res.ok.injEq] at h
      subst h; intro t ht
      rw [hbfM] at ht
      exact absurd ht (List.not_mem_nil t)
    | FloatResult q =>
      simp only [Res.pure_eq, Res.ok.injEq] at h
      subst h; intro t ht
      rw [hbfM] at ht
      exact absurd ht (List.not_mem_nil t)
    | BooleanResult b =>
      simp only [Res.pure_eq, Res.ok.injEq] at h
      subst h; intro t ht
      rw [hbfM] at ht
      exact absurd ht (List.not_mem_nil t)
    | IdentResult s =>
      simp only [Res.pure_eq, Res.ok.injEq] at h
      subst h; intro t ht
      rw [hbfM] at ht
      exact absurd ht (List.not_mem_nil t)
    | MapResult m =>
      simp only [Res.pure_eq, Res.ok.injEq] at h
      subst h; intro t ht
      rw [hbfM] at ht
      exact absurd ht (List.not_mem_nil t)
    | LazyResult c =>
      simp only [Res.pure_eq, Res.ok.injEq] at h
      subst h; intro t ht
      rw [hbfM] at ht
      exact absurd ht (List.not_mem_nil t)
    | TypeResult n ps =>
      simp only [Res.pure_eq, Res.ok.injEq] at h
      subst h; intro t ht
      rw [hbfM] at ht
      exact absurd ht (List.not_mem_nil t)
  · rw [if_neg hA1] at h
    by_cases hA2 : endianTypeNames.contains bf.Type' = true
    · -- endian-carrying scalar types
      rw [if_pos hA2] at h
      simp only [Res.bind_eq_ok, Res.pure_eq, Res.ok.injEq] at h
      obtain ⟨endian, hend, h⟩ := h
      subst h; intro t ht
      have ht' : t ∈ bf.Match := ht
      rw [hbfM] at ht'
      exact absurd ht' (List.not_mem_nil t)
    · rw [if_neg hA2] at h
      by_cases hA3 : bf.Type' = TypeVar
      · -- var
        rw [if_pos hA3] at h
        simp only [Res.bind_eq_ok, Res.pure_eq, Res.ok.injEq] at h
        obtain ⟨vOpt, hvo, contents, hco, h⟩ := h
        subst h; intro t ht
        have ht' : t ∈ bf.Match := ht
        rw [hbfM] at ht'
        exact absurd ht' (List.not_mem_nil t)
      · rw [if_neg hA3] at h
        by_cases hA4 : bf.Type' = TypeByte
        · -- byte
          rw [if_pos hA4] at h
          simp only [Res.bind_eq_ok] at h
          obtain ⟨strip, hstr, h⟩ := h
          by_cases hL : tyParams.length ≤ 0
          · rw [if_pos hL] at h
            simp only [Res.pure_eq, Res.ok.injEq] at h
            subst h; intro t ht
            simp only [apply_ite FormatType.Match, ite_self] at ht
            rw [hbfM] at ht
            exact absurd ht (List.not_mem_nil t)
          · rw [if_neg hL] at h
            simp only [Res.bind_eq_ok] at h
            obtain ⟨sizeRes, hsr, size, hsz, h⟩ := h
            by_cases hS : size < 0
            · rw [if_pos hS] at h
              exact Res.noConfusion h
            · rw [if_neg hS] at h
              simp only [Res.pure_eq, Res.ok.injEq] at h
              subst h; intro t ht
              simp only [apply_ite FormatType.Match, ite_self] at ht
              rw [hbfM] at ht
              exact absurd ht (List.not_mem_nil t)
        · rw [if_neg hA4] at h
          by_cases hA5 : bf.Type' = TypeArray
          · -- array
            rw [if_pos hA5] at h
            by_cases hL : tyParams.length ≤ 0
            · rw [if_pos hL] at h
              exact Res.noConfusion h
            · rw [if_neg hL] at h
              simp only [Res.bind_eq_ok] at h
              obtain ⟨itemOpt, hio, item, hit, arrSizeRes, hasr,
                bf2, hbf2, bf3, hbf3, h⟩ := h
              simp only [Res.pure_eq, Res.ok.injEq] at h
              subst h; intro t ht
              have ht' : t ∈ bf3.Match := ht
              rw [applyArrWhile_match _ _ _ hbf3,
                applyArrSize_match _ _ _ hbf2, hbfM] at ht'
              exact absurd ht' (List.not_mem_nil t)
          · rw [if_neg hA5] at h
            by_cases hA6 : bf.Type' = TypeStruct
            · -- struct
              rw [if_pos hA6] at h
              simp only [Res.bind_eq_ok, Res.pure_eq, Res.ok.injEq] at h
              obtain ⟨fOpt, hfo, fields, hfs, endian, hen,
                rawFields, hrfs, h⟩ := h
              subst h; intro t ht
              have ht' : t ∈ bf.Match := ht
              rw [hbfM] at ht'
              exact absurd ht' (List.not_mem_nil t)
            · rw [if_neg hA6] at h
              by_cases hA7 : bf.Type' = TypeEnum
              · -- enum
                rw [if_pos hA7] at h
                by_cases hL : tyParams.length ≤ 0
                · rw [if_pos hL] at h
                  exact Res.noConfusion h
                · rw [if_neg hL] at h
                  simp only [Res.bind_eq_ok] at h
                  obtain ⟨enumType, het, h⟩ := h
                  by_cases hN : (!(AvailableNumericTypes.contains enumType.1)) = true
                  · rw [if_pos hN] at h
                    exact Res.noConfusion h
                  · rw [if_neg hN] at h
                    simp only [Res.bind_eq_ok] at h
                    obtain ⟨mOpt, hmo, members, hms, bf2, hbf2,
                      mems, hmems, h⟩ := h
                    simp only [Res.pure_eq, Res.ok.injEq] at h
                    subst h; intro t ht
                    have ht' : t ∈ bf2.Match := ht
                    rw [applyEnumEndian_match _ _ _ _ _ _ hbf2, hbfM] at ht'
                    exact absurd ht' (List.not_mem_nil t)
              · -- unsupported type names: the format is returned as-is
                rw [if_neg hA7] at h
                simp only [Res.pure_eq, Res.ok.injEq] at h
                subst h; intro t ht
                have ht' : t ∈ bf.Match := ht
                rw [hbfM] at ht'
                exact absurd ht' (List.not_mem_nil t)

/-- Every `MagicTag` stored in a `ParseFormatType` result has `Offset = 0`:
the magic branch writes `0` for both the single-string form and every entry
of the list form, and every other branch (including an inherited lazy type
provider, by induction) leaves the zero-value `Match` untouched. -/
theorem parseFormatType_match_offsets (fuel : Nat) :
    ∀ (iter : GoMap → GoMap) (v : Value) (ns : Namespace) (base : GoMap)
      (fmt : FormatType),
      parseFormatType fuel iter v ns base = .ok fmt →
      ∀ t ∈ fmt.Match, t.Offset = 0 := by
  induction fuel with
  | zero =>
    intro iter v ns base fmt h
    simp [parseFormatType] at h
  | succ fuel ih =>
    intro iter v ns base fmt h
    simp only [parseFormatType, Res.bind_eq_ok] at h
    obtain ⟨bin, hbin, ifRes, hif, u, hu, switcher, hsw, tyOpt, htyOpt,
      genTypeRes, hgen, p, hp, h⟩ := h
    obtain ⟨inherited, typeRes⟩ := p
    simp only [Res.bind_eq_ok] at h
    obtain ⟨lazyIdRes, hlid, idRes, hidr, nameRes, hname, docRes, hdoc,
      atRes, hatr, atVal, hatv, validRes, hvres, h⟩ := h
    have hinh := resolveTypeProvider_inherited
      (fun v2 => parseFormatType fuel iter v2 ns [])
      (fun v2 ti hti => ih iter v2 ns [] ti hti) genTypeRes ns inherited
      typeRes hp
    rcases hinh with hinh | ⟨ti, hinh, hti0⟩
    · -- no inherited format: the `Match` field starts out at its zero value
      subst hinh
      rw [Option.isSome_none, if_neg (by decide : ¬ (false = true))] at h
      exact finishFormatType_offsets _ _ _ _ _ _ rfl h
    · -- inherited format: its id/name/… are overridden, `Match` is kept
      subst hinh
      rw [Option.isSome_some, if_pos (rfl : true = true)] at h
      simp only [Res.pure_eq, Res.ok.injEq] at h
      subst h
      intro t ht
      exact hti0 t ht

/-- When every tag's offset is 0, the source's seek to
`baseOffset + tag.Offset` lands exactly at the base offset, so the scan loop
coincides with the spec's anchored scan. -/
theorem checkMagicLoop_eq_spec (tags : List MagicTag) :
    ∀ (base : Nat) (st : ApplyState), (∀ t ∈ tags, t.Offset = 0) →
      checkMagicLoop tags base st = magicScanSpec tags base st := by
  induction tags with
  | nil => intro base st h0; rfl
  | cons tag rest ih =>
    intro base st h0
    have htag : tag.Offset = 0 := h0 tag (List.mem_cons_self _ _)
    have hseek : goSeek ((base : Int) + tag.Offset) ioSeekStart st =
        (.ok base, { st with pos := base }) := by
      rw [htag]
      simp [goSeek, ioSeekStart]
    simp only [checkMagicLoop, magicScanSpec, App.bind_apply, hseek, setPos]
    cases hr : goRead (strBytes tag.Contents).length { st with pos := base } with
    | mk r s2 =>
      cases r with
      | ok bytes =>
        by_cases hb : bytes = strBytes tag.Contents
        · simp [hr, hb]
        · simp [hr, hb,
            ih base s2 (fun t ht => h0 t (List.mem_cons_of_mem _ ht))]
      | err e => simp [hr]
      | panicked m => simp [hr]

/-- C10: every magic tag parsed by `ParseFormatType` — whatever the form of
the field's `match` entry — carries `Offset = 0`, and consequently
`checkMagic` on such a format coincides with the spec's anchored scan
(`magicScanSpec`): each candidate pattern is compared starting exactly at
the stream position where the field began, in list order, returning the
first exact match. -/
theorem C10_magic_offsets_zero_anchored_scan
    (fuel : Nat) (iter : GoMap → GoMap) (v : Value) (ns : Namespace)
    (base : GoMap) (fmt : FormatType)
    (hparse : parseFormatType fuel iter v ns base = .ok fmt) :
    (∀ t ∈ fmt.Match, t.Offset = 0) ∧
    ∀ st : ApplyState, checkMagic fmt st = magicScanSpec fmt.Match st.pos st := by
  have h0 := parseFormatType_match_offsets fuel iter v ns base fmt hparse
  refine ⟨h0, fun st => ?_⟩
  have hseek0 : goSeek 0 ioSeekCurrent st = (.ok st.pos, st) := by
    simp [goSeek, ioSeekCurrent, ioSeekStart]
  simp only [checkMagic, App.bind_apply, hseek0]
  exact checkMagicLoop_eq_spec fmt.Match st.pos st h0

/-- Witness for C10 at the magic field `{type: magic, match: ["XY", "AB"]}`. -/
theorem C10_magic_offsets_zero_anchored_scan_witness :
    parseFormatType 2 iterFwd c10Field nsFile [] =
      .ok { Type' := TypeMagic, Match := [⟨"XY", 0⟩, ⟨"AB", 0⟩] } ∧
    ((∀ t ∈ ({ Type' := TypeMagic, Match := [⟨"XY", 0⟩, ⟨"AB", 0⟩] } : FormatType).Match,
        t.Offset = 0) ∧
      ∀ st : ApplyState,
        checkMagic { Type' := TypeMagic, Match := [⟨"XY", 0⟩, ⟨"AB", 0⟩] } st =
          magicScanSpec [⟨"XY", 0⟩, ⟨"AB", 0⟩] st.pos st) :=
  ⟨rfl, C10_magic_offsets_zero_anchored_scan 2 iterFwd c10Field nsFile []
    { Type' := TypeMagic, Match := [⟨"XY", 0⟩, ⟨"AB", 0⟩] } rfl⟩

end BinId
